import Mathlib

/-!
Verification of the q2api request/response transformation pipeline.

This file gives a shallow embedding, in Lean 4, of the parts of the
repository that the frozen claims C1..C10 are about:

* `claude_parser.py` — the pure-Python CRC32C, the AWS Event Stream
  header codec (`EventStreamParser.parse_headers`) and the state-machine
  decoder (`EventStreamDecoder.feed` / `_try_parse_message` /
  `_try_recover`);
* `claude_stream.py` — the quote-aware tag scanner (`QuoteState`,
  `find_real_tag`, `_pending_tag_suffix`) and the streaming emitter
  (`ClaudeStreamHandler.handle_event` / `finish`);
* `claude_converter.py` — `is_thinking_mode_enabled`, the `-thinking`
  model-suffix detection of `map_model_name`, `_detect_tool_call_loop`,
  `_reorder_tool_results_by_tool_uses`, and the `formatted_content`
  assembly inside `convert_claude_to_amazonq_request`.

Modelling conventions:

* Python `bytes` are `List Nat` with each element a byte value; Python
  `str` is `String` or `List Char` (the emitter uses `List Char` so that
  the chunk loops are structural).
* Python loops whose index advances by a data-dependent amount are
  modelled by a fuel parameter; in every such definition the fuel passed
  by the wrapper is an upper bound on the number of loop iterations the
  Python loop can perform on that input (each iteration consumes at
  least one unit of input), so the fuel branch `0 => ...` is never the
  reason the loop stops.  This keeps every definition executable by
  kernel reduction.
* Counters and strings that are only used for logging or for token
  counting (`response_buffer`, `tool_input_buffer`,
  `_processed_tool_use_ids`, the numeric token counts in
  `message_delta`) are omitted: no claim mentions them and they do not
  feed back into control flow.
-/

/-! # Component C1 of the spec: CRC32C (claude_parser.py, lines 24-53) -/

/-- One step of the Castagnoli-polynomial table construction:
`crc = (crc >> 1) ^ poly if crc & 1 else crc >> 1` (`_init_crc32c_table`). -/
def crcPolyStep (c : Nat) : Nat :=
  if c % 2 = 1 then (c / 2) ^^^ 0x82F63B78 else c / 2

/-- `CRC32C_TABLE[i]` for `i < 256`: eight rounds of `crcPolyStep` on `i`.
The Python code materialises this as a 256-entry list; the decoder only
ever indexes it with `(crc ^ byte) & 0xFF`, which is `< 256`, so a plain
function is an equivalent model. -/
def crcTable (i : Nat) : Nat :=
  crcPolyStep (crcPolyStep (crcPolyStep (crcPolyStep
    (crcPolyStep (crcPolyStep (crcPolyStep (crcPolyStep i)))))))

/-- The byte loop of `_crc32c_python`:
`crc = CRC32C_TABLE[(crc ^ byte) & 0xFF] ^ (crc >> 8)`. -/
def crc32cRaw (crc : Nat) (data : List Nat) : Nat :=
  data.foldl (fun c b => crcTable ((c ^^^ b) % 256) ^^^ (c / 256)) crc

/-- `_crc32c_python(data, initial)`: XOR the initial value into all-ones,
run the table loop, XOR out.  (`crc32c` delegates to this function when
the optional Rust extension is absent, which is the configuration the
claims are about.) -/
def crc32c (data : List Nat) (initial : Nat) : Nat :=
  crc32cRaw (initial ^^^ 0xFFFFFFFF) data ^^^ 0xFFFFFFFF

/-! # Python string primitives

Python `str` values are modelled as `List Char` (or as `String`, whose
underlying data is a `List Char`).  The library's `String.toLower`,
`trim` and `endsWith` are not used because they do not reduce inside the
kernel; instead the Python behaviours are translated directly.  Python's
`str.lower`/`str.strip` also affect some non-ASCII characters; the model
covers the ASCII range, which is the only range exercised by model
names, tags and the JSON produced here. -/

/-- ASCII lowercasing of one character (`str.lower`). -/
def asciiLower (c : Char) : Char :=
  if 'A' ≤ c ∧ c ≤ 'Z' then Char.ofNat (c.toNat + 32) else c

/-- `str.lower()`. -/
def pyLower (s : List Char) : List Char := s.map asciiLower

/-- The characters `str.strip()` removes. -/
def pyIsSpace (c : Char) : Bool :=
  c = ' ' || c = '\t' || c = '\n' || c = '\r' || c = '\x0b' || c = '\x0c'

/-- `str.strip()`. -/
def pyStrip (s : List Char) : List Char :=
  ((s.dropWhile pyIsSpace).reverse.dropWhile pyIsSpace).reverse

/-- `str.rstrip()`. -/
def pyRStrip (s : List Char) : List Char :=
  (s.reverse.dropWhile pyIsSpace).reverse

/-- `s.endswith(t)`. -/
def listEndsWith (s t : List Char) : Bool :=
  decide (t.length ≤ s.length) && decide (s.drop (s.length - t.length) = t)

/-! # Thinking-mode detection (claude_converter.py, lines 32-50, 103-132, 636-645) -/

/-- The value of a `ClaudeRequest.thinking` field, as
`is_thinking_mode_enabled` inspects it.  The `dict` case keeps the three
fields the function reads; a `"type"` value of a non-string type is
stringified by Python's `str(...)` before comparison, which never yields
`"enabled"` for the non-string payloads that occur, so `type` is
modelled as an optional string; an `"enabled"` field that is present but
not a `bool` fails Python's `isinstance` check and behaves as absent, so
`enabled` is modelled as an optional Bool; `budget_tokens` must be an
`int` or `float` to count, modelled as an optional integer. -/
inductive ThinkingCfg where
  | boolCfg (b : Bool)
  | strCfg (s : String)
  | dictCfg (type : Option String) (enabled : Option Bool) (budgetTokens : Option Int)
deriving DecidableEq, Repr

/-- `is_thinking_mode_enabled(thinking_cfg)` with `none` standing for
Python `None` (and for non-bool/str/dict values, which also reach the
final `return False`). -/
def isThinkingModeEnabled : Option ThinkingCfg → Bool
  | none => false
  | some (.boolCfg b) => b
  | some (.strCfg s) => decide (pyLower s.data = "enabled".data)
  | some (.dictCfg type enabled budget) =>
    if pyLower (type.getD "").data = "enabled".data then true
    else match enabled with
      | some b => b
      | none =>
        match budget with
        | some n => decide (0 < n)
        | none => false

/-- The `-thinking`-suffix detection inside `map_model_name`
(claude_converter.py lines 103-119): normalise (strip, lowercase), fall
back without a flag when the name exceeds 100 characters, then test for
the `-thinking` suffix.  Only the returned flag is modelled; the claims
do not mention the returned model id. -/
def modelSuffixThinking (claudeModel : String) : Bool :=
  let m := pyLower (pyStrip claudeModel.data)
  if 100 < m.length then false
  else listEndsWith m "-thinking".data

/-- `convert_claude_to_amazonq_request` lines 636-645: thinking is
enabled when the explicit config enables it or the model name carried a
`-thinking` suffix. -/
def thinkingEnabled (cfg : Option ThinkingCfg) (model : String) : Bool :=
  isThinkingModeEnabled cfg || modelSuffixThinking model

/-- The condition claim C8 states, read off the spec's words: thinking
is true / the string "enabled" / an object with `type == "enabled"`,
with `enabled = true`, or with `budget_tokens > 0`; or the model carried
a `-thinking` suffix.  (In particular this counts an object with
`enabled = false` but positive `budget_tokens` as enabling.) -/
def claimC8Enabled (cfg : Option ThinkingCfg) (model : String) : Bool :=
  (match cfg with
   | none => false
   | some (.boolCfg b) => b
   | some (.strCfg s) => decide (pyLower s.data = "enabled".data)
   | some (.dictCfg type enabled budget) =>
     decide (pyLower (type.getD "").data = "enabled".data) || decide (enabled = some true) ||
       (match budget with | some n => decide (0 < n) | none => false))
  || modelSuffixThinking model

/-- The amended condition for C8, as a flat disjunction in the claim's
style: the only change against `claimC8Enabled` is that the
`budget_tokens > 0` disjunct applies only when the object carries no
boolean `enabled` flag (the code returns the `enabled` flag before
looking at `budget_tokens`). -/
def amendedC8Enabled (cfg : Option ThinkingCfg) (model : String) : Bool :=
  (match cfg with
   | none => false
   | some (.boolCfg b) => b
   | some (.strCfg s) => decide (pyLower s.data = "enabled".data)
   | some (.dictCfg type enabled budget) =>
     decide (pyLower (type.getD "").data = "enabled".data) || decide (enabled = some true) ||
       (decide (enabled = none) &&
         (match budget with | some n => decide (0 < n) | none => false)))
  || modelSuffixThinking model

/-! # Tool-result reordering (claude_converter.py, lines 279-308) -/

/-- One entry of a built `toolResults` list.  `toolUseId` is the
`"toolUseId"` field (`none` for an absent id); `content` stands for the
rest of the dict (content list and status), which
`_reorder_tool_results_by_tool_uses` moves around but never reads. -/
structure ToolResult where
  toolUseId : Option String
  content : String
deriving DecidableEq, Repr

/-- Python truthiness of `r.get("toolUseId")`: a present, non-empty
string. -/
def idTruthy : Option String → Bool
  | some s => decide (s ≠ "")
  | none => false

/-- The id under which a result is keyed in `result_by_id`, if any. -/
def rid (r : ToolResult) : Option String :=
  if idTruthy r.toolUseId then r.toolUseId else none

/-- Python `dict` assignment `d[k] = v` on an insertion-ordered
association list: overwrite in place if the key exists, else append. -/
def dictInsert (d : List (String × ToolResult)) (k : String) (v : ToolResult) :
    List (String × ToolResult) :=
  if d.any (fun kv => decide (kv.1 = k)) then
    d.map (fun kv => if kv.1 = k then (k, v) else kv)
  else d ++ [(k, v)]

/-- `result_by_id = {r.get("toolUseId"): r for r in tool_results if r.get("toolUseId")}`. -/
def buildDict (rs : List ToolResult) : List (String × ToolResult) :=
  rs.foldl (fun d r => match rid r with | some i => dictInsert d i r | none => d) []

/-- The `for tool_use_id in tool_use_order` loop: pop each id present in
the dict, appending the popped result to `ordered_results`. -/
def popAux : List String → List (String × ToolResult) → List ToolResult →
    List ToolResult × List (String × ToolResult)
  | [], d, acc => (acc, d)
  | u :: rest, d, acc =>
    match d.find? (fun kv => decide (kv.1 = u)) with
    | some kv => popAux rest (d.filter (fun kv2 => ! decide (kv2.1 = u))) (acc ++ [kv.2])
    | none => popAux rest d acc

/-- `_reorder_tool_results_by_tool_uses(tool_results, tool_use_order)`:
pop the results whose ids occur in `tool_use_order` in that order, then
the remaining dict values in insertion order, then the results without a
truthy id. -/
def reorderToolResults (toolResults : List ToolResult) (toolUseOrder : List String) :
    List ToolResult :=
  if toolUseOrder = [] ∨ toolResults = [] then toolResults
  else
    (popAux toolUseOrder (buildDict toolResults) []).1
      ++ ((popAux toolUseOrder (buildDict toolResults) []).2.map Prod.snd
      ++ toolResults.filter (fun r => ! idTruthy r.toolUseId))

/-- The id-to-pair view of `buildDict`'s intended contents when ids are
not duplicated. -/
def ridPairs (rs : List ToolResult) : List (String × ToolResult) :=
  rs.filterMap (fun r => (rid r).map (fun i => (i, r)))

/-! # Canonical JSON and tool-call loop detection (claude_converter.py, lines 589-634)

`_detect_tool_call_loop` canonicalises each `tool_use` input with
`json.dumps(input, sort_keys=True)` and compares the resulting
`(name, canonical_json)` pairs.  JSON values are modelled by `JVal`;
`dumps` mirrors `json.dumps` with its default separators `", "` and
`": "`, `sort_keys=True`, and `ensure_ascii=True`. -/

inductive JVal where
  | null
  | boolJ (b : Bool)
  | numJ (n : Int)
  | strJ (s : String)
  | arrJ (xs : List JVal)
  | objJ (kvs : List (String × JVal))
deriving Repr

/-- Lowercase hex digit, as `json.dumps` emits in `\uXXXX` escapes. -/
def hexDigitChar (n : Nat) : Char :=
  if n < 10 then Char.ofNat (48 + n) else Char.ofNat (87 + n)

/-- Four-digit hex rendering of `n < 0x10000`. -/
def hex4 (n : Nat) : List Char :=
  [hexDigitChar (n / 4096 % 16), hexDigitChar (n / 256 % 16),
   hexDigitChar (n / 16 % 16), hexDigitChar (n % 16)]

/-- `json.dumps` escaping of one character under `ensure_ascii=True`:
quote and backslash get two-character escapes, the common control
characters get their short escapes, other control characters and every
non-ASCII character get `\u` escapes (a surrogate pair above U+FFFF). -/
def jsonEscapeChar (c : Char) : List Char :=
  if c = '"' then ['\\', '"']
  else if c = '\\' then ['\\', '\\']
  else if c = '\n' then ['\\', 'n']
  else if c = '\r' then ['\\', 'r']
  else if c = '\t' then ['\\', 't']
  else if c.toNat = 8 then ['\\', 'b']
  else if c.toNat = 12 then ['\\', 'f']
  else if c.toNat < 0x20 then '\\' :: 'u' :: hex4 c.toNat
  else if c.toNat < 0x7f then [c]
  else if c.toNat < 0x10000 then '\\' :: 'u' :: hex4 c.toNat
  else
    '\\' :: 'u' :: hex4 (0xD800 + (c.toNat - 0x10000) / 1024)
      ++ '\\' :: 'u' :: hex4 (0xDC00 + (c.toNat - 0x10000) % 1024)

/-- Escape a whole string body. -/
def jsonEscape (s : List Char) : List Char := s.flatMap jsonEscapeChar

/-- A JSON string literal: `"` + escaped body + `"`. -/
def jsonQuote (s : List Char) : List Char := '"' :: jsonEscape s ++ ['"']

/-- Strict lexicographic order on code points, Python's `<` on `str`,
which is what `sort_keys=True` sorts by. -/
def lexLt : List Char → List Char → Bool
  | [], [] => false
  | [], _ :: _ => true
  | _ :: _, [] => false
  | a :: as, b :: bs =>
    if a.toNat < b.toNat then true
    else if b.toNat < a.toNat then false
    else lexLt as bs

/-- Stable insertion into a key-sorted list of (raw key, rendered
fragment) pairs. -/
def insertPair (kv : List Char × List Char) :
    List (List Char × List Char) → List (List Char × List Char)
  | [] => [kv]
  | kv2 :: rest =>
    if lexLt kv.1 kv2.1 then kv :: kv2 :: rest else kv2 :: insertPair kv rest

/-- Stable sort by raw key (`sorted` is stable; dict keys are unique
anyway). -/
def sortPairs (l : List (List Char × List Char)) : List (List Char × List Char) :=
  l.foldr insertPair []

/-- Join fragments with `json.dumps`'s default item separator `", "`. -/
def joinComma : List (List Char) → List Char
  | [] => []
  | [x] => x
  | x :: xs => x ++ ',' :: ' ' :: joinComma xs

/-- The opening and closing braces of a JSON object. -/
def lbraceChar : Char := Char.ofNat 123

def rbraceChar : Char := Char.ofNat 125

mutual

/-- `json.dumps(v, sort_keys=True)` (as a character list).  Object
members are each rendered as `"key": value` and emitted in ascending
raw-key order; rendering the members before sorting is equivalent to
Python's sorting of the items before rendering, because rendering is
per-member. -/
def dumpsJ : JVal → List Char
  | .null => "null".data
  | .boolJ true => "true".data
  | .boolJ false => "false".data
  | .numJ n => (toString n).data
  | .strJ s => jsonQuote s.data
  | .arrJ xs => '[' :: joinComma (dumpsArr xs) ++ [']']
  | .objJ kvs =>
    lbraceChar :: joinComma ((sortPairs (dumpsObjPairs kvs)).map Prod.snd) ++ [rbraceChar]

/-- Rendered fragments of an array's elements, in order. -/
def dumpsArr : List JVal → List (List Char)
  | [] => []
  | v :: vs => dumpsJ v :: dumpsArr vs

/-- For each object member, its raw key (the sort key) and its rendered
`"key": value` fragment. -/
def dumpsObjPairs : List (String × JVal) → List (List Char × List Char)
  | [] => []
  | (k, v) :: rest =>
    (k.data, jsonQuote k.data ++ ':' :: ' ' :: dumpsJ v) :: dumpsObjPairs rest

end

/-- `json.dumps(input, sort_keys=True)`. -/
def dumps (v : JVal) : List Char := dumpsJ v

/-- Roles of Claude messages. -/
inductive LoopRole where
  | userR
  | assistantR
deriving DecidableEq, Repr

/-- One content block, as far as `_detect_tool_call_loop` looks at it:
a `tool_use` block carries `block.get("name")` and
`block.get("input", \x7b\x7d)` (absent input defaults to the empty
object); every other block shape is ignored. -/
inductive LoopBlock where
  | toolUse (name : Option String) (input : JVal)
  | otherBlock
deriving Repr

/-- Message content: a plain string or a block list (`isinstance(msg.content, list)`). -/
inductive LoopContent where
  | strC (s : String)
  | blocksC (bs : List LoopBlock)
deriving Repr

/-- A message as `_detect_tool_call_loop` reads it. -/
structure LoopMsg where
  role : LoopRole
  content : LoopContent
deriving Repr

/-- The scan state: `(consecutive_count, last_tool_call)`. -/
abbrev LoopState := Nat × Option (Option String × List Char)

/-- The inner block loop of `_detect_tool_call_loop`: a `tool_use`
block either extends the run of identical calls or starts a new run of
length 1; other blocks are skipped. -/
def detectStepBlock (st : LoopState) (b : LoopBlock) : LoopState :=
  match b with
  | .toolUse name input =>
    let cur := (name, dumps input)
    if st.2 = some cur then (st.1 + 1, some cur) else (1, some cur)
  | .otherBlock => st

/-- The per-message step: assistant messages with list content scan
their blocks, assistant messages with string content change nothing,
and user messages reset the run (`consecutive_count = 0`,
`last_tool_call = None`). -/
def detectStepMsg (st : LoopState) (m : LoopMsg) : LoopState :=
  match m.role, m.content with
  | .assistantR, .blocksC bs => bs.foldl detectStepBlock st
  | .assistantR, .strC _ => st
  | .userR, _ => (0, none)

/-- The error message `_detect_tool_call_loop` formats (a `None` name
prints as Python prints it). -/
def loopMsgText (last : Option (Option String × List Char)) (count : Nat) : String :=
  "Detected infinite loop: tool '"
    ++ (match last with
        | some (some n, _) => n
        | some (none, _) => "None"
        | none => "None")
    ++ "' called " ++ toString count ++ " times consecutively with same input"

/-- `_detect_tool_call_loop(messages, threshold)`: scan the last 10
messages and fire iff the final consecutive count reaches the
threshold. -/
def detectToolCallLoop (messages : List LoopMsg) (threshold : Nat) : Option String :=
  let recent := messages.drop (messages.length - 10)
  let st := recent.foldl detectStepMsg (0, none)
  if threshold ≤ st.1 then some (loopMsgText st.2 st.1) else none

/-- The loop-guard slice of `convert_claude_to_amazonq_request` (lines
631-634): the request fails with `LoopDetected` exactly when
`_detect_tool_call_loop(req.messages, threshold=3)` returns a message. -/
def convertRaisesLoopDetected (messages : List LoopMsg) : Bool :=
  (detectToolCallLoop messages 3).isSome

/-- Claim-side tokens: the scan-relevant events of the last-10 window,
in order — one `reset` per user message, one `call` per `tool_use`
block of an assistant list-content message. -/
inductive LoopTok where
  | reset
  | call (c : Option String × List Char)
deriving DecidableEq, Repr

/-- The tokens contributed by one message. -/
def msgToks (m : LoopMsg) : List LoopTok :=
  match m.role, m.content with
  | .userR, _ => [.reset]
  | .assistantR, .strC _ => []
  | .assistantR, .blocksC bs =>
    bs.filterMap (fun b => match b with
      | .toolUse n i => some (.call (n, dumps i))
      | .otherBlock => none)

/-- All tokens in the last-10-message window. -/
def loopToks (messages : List LoopMsg) : List LoopTok :=
  ((messages.drop (messages.length - 10)).map msgToks).flatten

/-- The token-level scan step (claim side). -/
def tokStep (st : LoopState) (t : LoopTok) : LoopState :=
  match t with
  | .reset => (0, none)
  | .call c => if st.2 = some c then (st.1 + 1, some c) else (1, some c)

/-- Length of the maximal trailing run: on the reversed token list,
count the leading block of `call` tokens equal to the last one. -/
def trailingRunAux : List LoopTok → Nat
  | [] => 0
  | .reset :: _ => 0
  | .call c :: rest => 1 + (rest.takeWhile (fun t => decide (t = .call c))).length

/-- The run of identical consecutive calls at the end of the window:
not interrupted by a user message or by a differing call. -/
def trailingRun (ts : List LoopTok) : Nat := trailingRunAux ts.reverse

/-- The `last_tool_call` a scan of these tokens ends with. -/
def headCallOf : List LoopTok → Option (Option String × List Char)
  | [] => none
  | .reset :: _ => none
  | .call c :: _ => some c

/-- Longest run of identical consecutive calls anywhere in the window
(claim side): fold carrying (current run, last call, best run). -/
def maxRunStep (st : Nat × Option (Option String × List Char) × Nat) (t : LoopTok) :
    Nat × Option (Option String × List Char) × Nat :=
  match t with
  | .reset => (0, none, st.2.2)
  | .call c =>
    let cur := if st.2.1 = some c then st.1 + 1 else 1
    (cur, some c, max st.2.2 cur)

/-- Longest run of identical consecutive assistant tool calls in the
window, with user messages resetting the run. -/
def maxRun (ts : List LoopTok) : Nat := (ts.foldl maxRunStep (0, none, 0)).2.2

/-- C4's counterexample request: inside the last 10 messages, three
consecutive assistant messages each with the identical
`tool_use (name = "search", input = \x7b"q": "x"\x7d)`, followed by one
assistant message with a different call. -/
def c4ExampleMsgs : List LoopMsg :=
  [⟨.assistantR, .blocksC [.toolUse (some "search") (.objJ [("q", .strJ "x")])]⟩,
   ⟨.assistantR, .blocksC [.toolUse (some "search") (.objJ [("q", .strJ "x")])]⟩,
   ⟨.assistantR, .blocksC [.toolUse (some "search") (.objJ [("q", .strJ "x")])]⟩,
   ⟨.assistantR, .blocksC [.toolUse (some "other") (.objJ [])]⟩]

/-! # Current-message formatting (claude_converter.py, lines 52-61, 752-810)

`formatted_content` is assembled from: the `has_tool_result` /
`prompt_content` pair extracted from the last user message, the
`long_desc_tools` list (name and full description of every tool whose
description exceeded 10240 characters), `req.system`, the thinking
flag, and the current timestamp.  Those inputs are taken as parameters;
the claim is about the concatenation order of the sections. -/

/-- One block of a list-valued `req.system`. -/
inductive SysBlock where
  | textBlock (t : String)
  | otherSys
deriving Repr

/-- `req.system`: absent, a string, or a list of blocks. -/
inductive SystemVal where
  | noneS
  | strS (s : String)
  | blocksS (bs : List SysBlock)
deriving Repr

/-- Python truthiness of `req.system`. -/
def systemTruthy : SystemVal → Bool
  | .noneS => false
  | .strS s => decide (s ≠ "")
  | .blocksS [] => false
  | .blocksS (_ :: _) => true

/-- `"\n".join(parts)`. -/
def joinNlStr : List String → String
  | [] => ""
  | [x] => x
  | x :: xs => x ++ "\n" ++ joinNlStr xs

/-- The flattened system text (`sys_text`): the string itself, or the
newline-join of the `text` fields of the `type == "text"` blocks. -/
def sysTextOf : SystemVal → String
  | .noneS => ""
  | .strS s => s
  | .blocksS bs =>
    joinNlStr (bs.filterMap (fun b => match b with
      | .textBlock t => some t
      | .otherSys => none))

/-- `THINKING_HINT` (claude_converter.py line 24). -/
def THINKING_HINT : String :=
  "<thinking_mode>interleaved</thinking_mode><max_thinking_length>16000</max_thinking_length>"

/-- `_append_thinking_hint(text, hint)`. -/
def appendThinkingHint (text hint : String) : String :=
  if listEndsWith (pyRStrip text.data) hint.data then text
  else if text = "" then hint
  else
    text
      ++ (if listEndsWith text.data "\n".data || listEndsWith text.data "\r".data
          then "" else "\n")
      ++ hint

/-- The `CONTEXT ENTRY` + `USER MESSAGE` base block (code lines
769-776). -/
def contextUserSection (now prompt : String) : String :=
  "--- CONTEXT ENTRY BEGIN ---\nCurrent time: " ++ now
    ++ "\n--- CONTEXT ENTRY END ---\n\n--- USER MESSAGE BEGIN ---\n" ++ prompt
    ++ "\n--- USER MESSAGE END ---"

/-- `''.join(docs)` with one `Tool: name\nFull Description:\ndesc\n`
entry per long-description tool (code lines 778-781). -/
def toolDocsBody : List (String × String) → String
  | [] => ""
  | info :: rest =>
    "Tool: " ++ info.1 ++ "\nFull Description:\n" ++ info.2 ++ "\n" ++ toolDocsBody rest

/-- The `TOOL DOCUMENTATION` wrapper prepended to `rest` (code lines
782-787). -/
def toolDocSection (body rest : String) : String :=
  "--- TOOL DOCUMENTATION BEGIN ---\n" ++ body
    ++ "--- TOOL DOCUMENTATION END ---\n\n" ++ rest

/-- The `SYSTEM PROMPT` wrapper prepended to `rest` (code lines
800-806). -/
def sysSection (sysText rest : String) : String :=
  "--- SYSTEM PROMPT BEGIN ---\n" ++ sysText
    ++ "\n--- SYSTEM PROMPT END ---\n\n" ++ rest

/-- The `formatted_content` assembly of
`convert_claude_to_amazonq_request` (lines 764-810): base block (empty
when the last user content is tool_results only), then the tool-doc
wrapper is prepended, then the system wrapper is prepended (only when
`req.system` is truthy, the content so far is nonempty and the
flattened system text is nonempty), then the thinking hint is appended. -/
def formattedContent (hasToolResult : Bool) (promptContent : String)
    (longDescTools : List (String × String)) (system : SystemVal)
    (thinking : Bool) (now : String) : String :=
  let base := if hasToolResult = true ∧ promptContent = "" then ""
    else contextUserSection now promptContent
  let withDocs := if longDescTools = [] then base
    else toolDocSection (toolDocsBody longDescTools) base
  let withSys := if systemTruthy system = true ∧ withDocs ≠ "" ∧ sysTextOf system ≠ ""
    then sysSection (sysTextOf system) withDocs
    else withDocs
  if thinking = true then appendThinkingHint withSys THINKING_HINT else withSys

/-- The order claim C6 states, read off the spec's words: (1) TOOL
DOCUMENTATION, (2) SYSTEM PROMPT, (3) CONTEXT ENTRY, (4) USER MESSAGE. -/
def claimC6Order (promptContent : String) (longDescTools : List (String × String))
    (system : SystemVal) (now : String) : String :=
  (if longDescTools = [] then ""
    else "--- TOOL DOCUMENTATION BEGIN ---\n" ++ toolDocsBody longDescTools
      ++ "--- TOOL DOCUMENTATION END ---\n\n")
    ++ ((if systemTruthy system = true ∧ sysTextOf system ≠ ""
      then "--- SYSTEM PROMPT BEGIN ---\n" ++ sysTextOf system
        ++ "\n--- SYSTEM PROMPT END ---\n\n"
      else "")
    ++ contextUserSection now promptContent)

/-! # AWS Event Stream decoding (claude_parser.py, lines 59-294)

Bytes are `Nat` values; `struct.unpack('>I'/'>H'/...)` become the
big-endian readers below.  The decoder is translated with its state
machine, counters and recovery scan.  Two modelling notes:

* the frame `payload` is kept as its raw byte slice.  The Python code
  additionally attempts `json.loads` on it and keeps the bytes on
  failure; that is a pure function of the slice applied after parsing,
  so equality of raw slices implies equality of the Python frames,
  and every difference exhibited below is already a difference of raw
  slices or of frame counts;
* header names (and string header values) stay byte lists; Python
  decodes them as strict UTF-8 and an invalid sequence raises, which
  `_try_parse_message` catches and turns into a parse error.  `utf8Valid`
  reproduces the strict validity check, and `parseHeaders` returns
  `none` exactly when Python would raise.  On valid names the decode is
  a bijection, so keeping bytes loses nothing. -/

/-- Big-endian 16-bit read of the first two bytes. -/
def u16be (l : List Nat) : Nat := l.getD 0 0 * 256 + l.getD 1 0

/-- Big-endian 32-bit read of the first four bytes. -/
def u32be (l : List Nat) : Nat :=
  l.getD 0 0 * 16777216 + l.getD 1 0 * 65536 + l.getD 2 0 * 256 + l.getD 3 0

/-- Big-endian 64-bit read of the first eight bytes. -/
def u64be (l : List Nat) : Nat := u32be (l.take 4) * 4294967296 + u32be (l.drop 4)

/-- Two's-complement reinterpretation of a `w`-bit unsigned value
(`'>h'`, `'>i'`, `'>q'`). -/
def toSigned (w : Nat) (u : Nat) : Int :=
  if u < 2 ^ (w - 1) then (u : Int) else (u : Int) - 2 ^ w

/-- A UTF-8 continuation byte. -/
def utf8Cont (b : Nat) : Bool := decide (128 ≤ b) && decide (b ≤ 191)

/-- Strict UTF-8 validity, as CPython's `bytes.decode('utf-8')` checks
it: no overlong forms, no surrogates, nothing above U+10FFFF. -/
def utf8Valid : List Nat → Bool
  | [] => true
  | b :: rest =>
    if b ≤ 0x7F then utf8Valid rest
    else if b < 0xC2 then false
    else if b ≤ 0xDF then
      match rest with
      | c1 :: r => utf8Cont c1 && utf8Valid r
      | [] => false
    else if b = 0xE0 then
      match rest with
      | c1 :: c2 :: r =>
        decide (0xA0 ≤ c1) && decide (c1 ≤ 0xBF) && utf8Cont c2 && utf8Valid r
      | _ => false
    else if b ≤ 0xEC then
      match rest with
      | c1 :: c2 :: r => utf8Cont c1 && utf8Cont c2 && utf8Valid r
      | _ => false
    else if b = 0xED then
      match rest with
      | c1 :: c2 :: r =>
        decide (0x80 ≤ c1) && decide (c1 ≤ 0x9F) && utf8Cont c2 && utf8Valid r
      | _ => false
    else if b ≤ 0xEF then
      match rest with
      | c1 :: c2 :: r => utf8Cont c1 && utf8Cont c2 && utf8Valid r
      | _ => false
    else if b = 0xF0 then
      match rest with
      | c1 :: c2 :: c3 :: r =>
        decide (0x90 ≤ c1) && decide (c1 ≤ 0xBF) && utf8Cont c2 && utf8Cont c3 && utf8Valid r
      | _ => false
    else if b ≤ 0xF3 then
      match rest with
      | c1 :: c2 :: c3 :: r => utf8Cont c1 && utf8Cont c2 && utf8Cont c3 && utf8Valid r
      | _ => false
    else if b = 0xF4 then
      match rest with
      | c1 :: c2 :: c3 :: r =>
        decide (0x80 ≤ c1) && decide (c1 ≤ 0x8F) && utf8Cont c2 && utf8Cont c3 && utf8Valid r
      | _ => false
    else false

/-- Parsed header values (`EventStreamParser` type tags 0-9).  The UUID
value keeps its 16 raw bytes; Python renders them as a hex string,
which is injective, so nothing is conflated. -/
inductive HVal where
  | boolV (b : Bool)
  | byteV (n : Nat)
  | shortV (n : Int)
  | intV (n : Int)
  | longV (n : Int)
  | bytesV (bs : List Nat)
  | strV (bs : List Nat)
  | timestampV (n : Int)
  | uuidV (bs : List Nat)
deriving DecidableEq, Repr

/-- Python dict assignment `headers[name] = value` on an
insertion-ordered association list. -/
def hInsert (d : List (List Nat × HVal)) (k : List Nat) (v : HVal) :
    List (List Nat × HVal) :=
  if d.any (fun kv => decide (kv.1 = k)) then
    d.map (fun kv => if kv.1 = k then (k, v) else kv)
  else d ++ [(k, v)]

/-- The `while offset < len(headers_data)` loop of
`EventStreamParser.parse_headers`, on the remaining bytes.  Any
truncated field and any unknown value type `break` out of the loop and
return the headers accumulated so far; an invalid UTF-8 name or string
value raises (modelled as `none`), which the caller turns into a parse
error.  The fuel is an iteration bound: every iteration that continues
consumes at least the name-length byte and the type byte, so
`length + 1` iterations are never exhausted. -/
def parseHeadersAux : Nat → List (List Nat × HVal) → List Nat → Option (List (List Nat × HVal))
  | 0, acc, _ => some acc
  | _ + 1, acc, [] => some acc
  | fuel + 1, acc, nameLen :: rest =>
    if rest.length < nameLen then some acc
    else
      let name := rest.take nameLen
      if ¬ utf8Valid name then none
      else
        match rest.drop nameLen with
        | [] => some acc
        | t :: rest3 =>
          if t = 0 then parseHeadersAux fuel (hInsert acc name (.boolV true)) rest3
          else if t = 1 then parseHeadersAux fuel (hInsert acc name (.boolV false)) rest3
          else if t = 2 then
            match rest3 with
            | [] => some acc
            | b1 :: r => parseHeadersAux fuel (hInsert acc name (.byteV b1)) r
          else if t = 3 then
            if rest3.length < 2 then some acc
            else parseHeadersAux fuel
              (hInsert acc name (.shortV (toSigned 16 (u16be (rest3.take 2))))) (rest3.drop 2)
          else if t = 4 then
            if rest3.length < 4 then some acc
            else parseHeadersAux fuel
              (hInsert acc name (.intV (toSigned 32 (u32be (rest3.take 4))))) (rest3.drop 4)
          else if t = 5 then
            if rest3.length < 8 then some acc
            else parseHeadersAux fuel
              (hInsert acc name (.longV (toSigned 64 (u64be (rest3.take 8))))) (rest3.drop 8)
          else if t = 8 then
            if rest3.length < 8 then some acc
            else parseHeadersAux fuel
              (hInsert acc name (.timestampV (toSigned 64 (u64be (rest3.take 8))))) (rest3.drop 8)
          else if t = 6 ∨ t = 7 then
            if rest3.length < 2 then some acc
            else
              let vlen := u16be (rest3.take 2)
              let rest4 := rest3.drop 2
              if rest4.length < vlen then some acc
              else
                let raw := rest4.take vlen
                if t = 7 then
                  if ¬ utf8Valid raw then none
                  else parseHeadersAux fuel (hInsert acc name (.strV raw)) (rest4.drop vlen)
                else parseHeadersAux fuel (hInsert acc name (.bytesV raw)) (rest4.drop vlen)
          else if t = 9 then
            if rest3.length < 16 then some acc
            else parseHeadersAux fuel
              (hInsert acc name (.uuidV (rest3.take 16))) (rest3.drop 16)
          else some acc

/-- `EventStreamParser.parse_headers(headers_data)`; `none` stands for
the `UnicodeDecodeError` that `_try_parse_message`'s `except` turns
into a parse error. -/
def parseHeaders (data : List Nat) : Option (List (List Nat × HVal)) :=
  parseHeadersAux (data.length + 1) [] data

/-- One parsed frame `{'headers': ..., 'payload': ..., 'total_length': ...}`
(payload as its raw byte slice, see the section comment). -/
structure PFrame where
  headers : List (List Nat × HVal)
  payload : List Nat
  totalLength : Nat
deriving DecidableEq, Repr

/-- Result of `EventStreamDecoder._try_parse_message`: a frame plus the
buffer remainder, `None` (need more data), or `False` (error, with a
flag for whether `crc_errors` was incremented). -/
inductive ParseRes where
  | frame (f : PFrame) (rest : List Nat)
  | needMore
  | err (crcErr : Bool)
deriving DecidableEq, Repr

/-- `EventStreamDecoder._try_parse_message` on a buffer of at least 12
bytes (the caller's guard). -/
def tryParseMessage (validateCrc : Bool) (buf : List Nat) : ParseRes :=
  let total := u32be (buf.take 4)
  if total < 16 ∨ 16777216 < total then .err false
  else if buf.length < total then .needMore
  else
    let msg := buf.take total
    if validateCrc ∧ u32be ((msg.drop 8).take 4) ≠ crc32c (msg.take 8) 0 then .err true
    else if validateCrc ∧ u32be (msg.drop (total - 4)) ≠ crc32c (msg.take (total - 4)) 0 then
      .err true
    else
      let hl := u32be ((msg.drop 4).take 4)
      match parseHeaders ((msg.drop 12).take hl) with
      | none => .err false
      | some headers =>
        .frame ⟨headers, (msg.take (total - 4)).drop (12 + hl), total⟩ (buf.drop total)

/-- `EventStreamDecoder._try_recover`: returns the success flag and the
mutated buffer (one byte dropped from the head; on a scan hit the bytes
before the hit dropped too; on a miss an oversized buffer truncated to
its last KiB). -/
def tryRecover (buf : List Nat) : Bool × List Nat :=
  if buf.length < 12 then (false, buf)
  else
    let b := buf.drop 1
    match (List.range (b.length - 11)).find? (fun i =>
        decide (16 ≤ u32be ((b.drop i).take 4)) &&
        decide (u32be ((b.drop i).take 4) ≤ 16777216) &&
        decide (i + 12 ≤ b.length) &&
        decide (crc32c ((b.drop i).take 8) 0 = u32be ((b.drop (i + 8)).take 4))) with
    | some i => (true, b.drop i)
    | none =>
      if 16 * 1024 < b.length then (false, b.drop (b.length - 1024)) else (false, b)

/-- Decoder states. -/
inductive DState where
  | ready
  | parsing
  | recovering
  | stopped
deriving DecidableEq, Repr

/-- `EventStreamDecoder` instance state. -/
structure Dec where
  state : DState
  buffer : List Nat
  errorCount : Nat
  maxErrors : Nat
  validateCrc : Bool
  messagesParsed : Nat
  crcErrors : Nat
deriving DecidableEq, Repr

/-- The `while True` loop of `EventStreamDecoder.feed`, one recursive
call per iteration.  The fuel is an iteration bound: an iteration
either breaks, or consumes at least 16 buffer bytes (frame parsed), or
moves to RECOVERING without consuming (at most once in a row, since the
next iteration's recovery drops at least one byte or breaks) — so
`2 * buffer.length + 2` iterations are never exhausted. -/
def feedLoop : Nat → Dec → Dec × List PFrame
  | 0, st => (st, [])
  | fuel + 1, st =>
    let pre : Dec ⊕ Dec :=
      if st.state = DState.recovering then
        let r := tryRecover st.buffer
        if r.1 then Sum.inr { st with state := .ready, buffer := r.2 }
        else Sum.inl { st with buffer := r.2 }
      else Sum.inr st
    match pre with
    | Sum.inl stBreak => (stBreak, [])
    | Sum.inr st1 =>
      if st1.buffer.length < 12 then (st1, [])
      else
        let st2 := { st1 with state := DState.parsing }
        match tryParseMessage st2.validateCrc st2.buffer with
        | .needMore => (st2, [])
        | .err crc =>
          let st3 := { st2 with
            errorCount := st2.errorCount + 1
            crcErrors := st2.crcErrors + (if crc then 1 else 0) }
          if st3.maxErrors ≤ st3.errorCount then
            ({ st3 with state := .stopped }, [])
          else
            feedLoop fuel { st3 with state := .recovering }
        | .frame f rest =>
          let st3 := { st2 with
            state := DState.ready
            errorCount := 0
            messagesParsed := st2.messagesParsed + 1
            buffer := rest }
          let r2 := feedLoop fuel st3
          (r2.1, f :: r2.2)

/-- `EventStreamDecoder.feed(data)`: discard input when STOPPED, else
append to the buffer and run the loop. -/
def feed (st : Dec) (data : List Nat) : Dec × List PFrame :=
  if st.state = DState.stopped then (st, [])
  else feedLoop (2 * (st.buffer.length + data.length) + 2) { st with buffer := st.buffer ++ data }

/-- A decoder as `EventStreamDecoder()` constructs it (defaults
`max_errors=3`, `validate_crc=True`). -/
def initDec : Dec :=
  { state := .ready, buffer := [], errorCount := 0, maxErrors := 3,
    validateCrc := true, messagesParsed := 0, crcErrors := 0 }

/-- Fold one chunk into an accumulated (decoder, frames) pair. -/
def feedStep (acc : Dec × List PFrame) (c : List Nat) : Dec × List PFrame :=
  ((feed acc.1 c).1, acc.2 ++ (feed acc.1 c).2)

/-- Feed a list of chunks in order, concatenating the returned frames. -/
def feedAll (st : Dec) (chunks : List (List Nat)) : Dec × List PFrame :=
  chunks.foldl feedStep (st, [])

/-- A well-formed wire frame: length in range and recorded in the
prelude, both CRCs correct, and a header region that parses without an
exception (spec section 3's frame format; "valid byte sequences" are
concatenations of these). -/
def ValidFrame (f : List Nat) : Prop :=
  16 ≤ f.length ∧ f.length ≤ 16777216
    ∧ u32be (f.take 4) = f.length
    ∧ u32be ((f.drop 8).take 4) = crc32c (f.take 8) 0
    ∧ u32be (f.drop (f.length - 4)) = crc32c (f.take (f.length - 4)) 0
    ∧ (parseHeaders ((f.drop 12).take (u32be ((f.drop 4).take 4)))).isSome = true

instance (f : List Nat) : Decidable (ValidFrame f) := by
  unfold ValidFrame
  infer_instance

/-- The frame record the decoder produces for a valid frame. -/
def recordOf (f : List Nat) : PFrame :=
  { headers := (parseHeaders ((f.drop 12).take (u32be ((f.drop 4).take 4)))).getD []
    payload := (f.take (f.length - 4)).drop (12 + u32be ((f.drop 4).take 4))
    totalLength := f.length }

/-- A 16-byte empty frame (no headers, no payload) with correct CRCs. -/
def f16Bytes : List Nat :=
  [0, 0, 0, 16, 0, 0, 0, 0, 3, 10, 211, 89, 109, 22, 167, 137]

/-- Two valid empty frames separated by one garbage byte. -/
def c2Bytes : List Nat := f16Bytes ++ 255 :: f16Bytes

/-- A 23-byte frame with correct CRCs whose header region is
`[1, 66, 0]` (header "B", bool true) followed by `[1, 65, 10, 99]`
(header "A" with unknown value type 10). -/
def c7FrameBytes : List Nat :=
  [0, 0, 0, 23, 0, 0, 0, 7, 127, 182, 185, 246, 1, 66, 0, 1, 65, 10, 99, 193, 90, 105, 227]

/-! # Quote-aware tag scanner (claude_stream.py, lines 21-130)

Text is `List Char`.  The scanners are translated loop-for-loop; loops
whose index advances by 1-3 positions use the list structure (the
triple-backtick lookahead `text[i:i+3] == '```'` is the three-element
pattern, available exactly when at least three characters remain, which
is the Python guard `i + 2 < len(text)`). -/

/-- `QuoteState`'s four flags. -/
structure QS where
  inSingle : Bool
  inDouble : Bool
  inBacktick : Bool
  inTriple : Bool
deriving DecidableEq, Repr

/-- A fresh `QuoteState()` (also the result of `reset()`). -/
def initQS : QS := ⟨false, false, false, false⟩

/-- `is_inside_quotes`. -/
def qsIsInside (q : QS) : Bool := q.inSingle || q.inDouble || q.inBacktick || q.inTriple

/-- Processing of one non-lookahead character: toggle the matching flag
when no higher-precedence state is active (`QuoteState.update`'s
if/elif chain). -/
def qsStepChar (q : QS) (ch : Char) : QS :=
  if ch = '`' && !q.inTriple && !q.inSingle && !q.inDouble then
    { q with inBacktick := !q.inBacktick }
  else if ch = '"' && !q.inSingle && !q.inBacktick && !q.inTriple then
    { q with inDouble := !q.inDouble }
  else if ch = '\'' && !q.inDouble && !q.inBacktick && !q.inTriple then
    { q with inSingle := !q.inSingle }
  else q

/-- `QuoteState.update(text)`: triple backticks toggle the fence (when
three characters remain), a backslash followed by a quote, backtick or
backslash consumes both, anything else steps one character. -/
def qsUpdate (q : QS) : List Char → QS
  | [] => q
  | '`' :: '`' :: '`' :: rest => qsUpdate { q with inTriple := !q.inTriple } rest
  | '\\' :: c2 :: rest =>
    if c2 = '"' || c2 = '\'' || c2 = '`' || c2 = '\\' then qsUpdate q rest
    else qsUpdate (qsStepChar q '\\') (c2 :: rest)
  | ch :: rest => qsUpdate (qsStepChar q ch) rest

/-- `QuoteState.check_at_position(text, pos)`: the same scan, bounded by
`while i < pos` (the budget), starting from the persisted flags,
without mutating them.  The lookahead still reads past `pos`, and a
triple-backtick jump may step over `pos`, exactly as in the source.
(The source would raise an IndexError for `pos > len(text)`; no caller
does that, and the model returns the flags accumulated so far.) -/
def qsCheckAux (q : QS) : List Char → Nat → Bool
  | _, 0 => qsIsInside q
  | [], _ + 1 => qsIsInside q
  | '`' :: '`' :: '`' :: rest, budget + 1 =>
    qsCheckAux { q with inTriple := !q.inTriple } rest (budget - 2)
  | '\\' :: c2 :: rest, budget + 1 =>
    if c2 = '"' || c2 = '\'' || c2 = '`' || c2 = '\\' then qsCheckAux q rest (budget - 1)
    else qsCheckAux (qsStepChar q '\\') (c2 :: rest) budget
  | ch :: rest, budget + 1 => qsCheckAux (qsStepChar q ch) rest budget

/-- `check_at_position` proper. -/
def qsCheck (q : QS) (t : List Char) (pos : Nat) : Bool := qsCheckAux q t pos

/-- Does `tag` occur in `t` at index `i`? -/
def tagAt (t tag : List Char) (i : Nat) : Bool := decide ((t.drop i).take tag.length = tag)

/-- `text.find(tag, pos)` (as an `Option`): first occurrence index at or
after `pos`.  The fuel bounds the scan: at most `length + 1` candidate
positions exist. -/
def findFromAux (t tag : List Char) : Nat → Nat → Option Nat
  | 0, _ => none
  | fuel + 1, pos =>
    if t.length < pos + tag.length then none
    else if tagAt t tag pos then some pos
    else findFromAux t tag fuel (pos + 1)

/-- `text.find(tag, pos)`. -/
def findFrom (t tag : List Char) (pos : Nat) : Option Nat :=
  findFromAux t tag (t.length + 1) pos

/-- The retry loop of `find_real_tag(text, tag, start, quote_state)`:
skip occurrences that `check_at_position` places inside quotes.  Each
retry restarts one past the found index, so `length + 1` iterations
bound the loop. -/
def findRealTagAux (q : QS) (t tag : List Char) : Nat → Nat → Option Nat
  | 0, _ => none
  | fuel + 1, pos =>
    match findFrom t tag pos with
    | none => none
    | some idx =>
      if qsCheck q t idx then findRealTagAux q t tag fuel (idx + 1) else some idx

/-- `find_real_tag(text, tag, start, quote_state)` (the handler always
passes its persistent quote state, so only that branch is modelled). -/
def findRealTag (q : QS) (t tag : List Char) (start : Nat) : Option Nat :=
  findRealTagAux q t tag (t.length + 1) start

/-- The countdown loop of `_pending_tag_suffix`. -/
def ptsAux (buf tag : List Char) : Nat → Nat
  | 0 => 0
  | n + 1 =>
    if buf.drop (buf.length - (n + 1)) = tag.take (n + 1) then n + 1
    else ptsAux buf tag n

/-- `_pending_tag_suffix(buffer, tag)`: length of the longest suffix of
`buffer` equal to a strict prefix of `tag`. -/
def pendingTagSuffix (buf tag : List Char) : Nat :=
  if buf = [] ∨ tag = [] then 0
  else ptsAux buf tag (min buf.length (tag.length - 1))

/-- `THINKING_START_TAG`. -/
def thinkingStartTag : List Char := "<thinking>".data

/-- `THINKING_END_TAG`. -/
def thinkingEndTag : List Char := "</thinking>".data

/-! # Streaming emitter (claude_stream.py, lines 166-421)

The SSE strings built by the `build_*` helpers are modelled as the
structured events `Out`; each `build_*` call maps to one constructor
(`build_message_stop` emits its `message_delta` and `message_stop` in
one string, modelled as the single `Out.messageStop` carrying the stop
reason).  The extra constructor `Out.qreset` is a ghost marker for the
`quote_state.reset()` call site — it corresponds to no SSE output and
exists so that the quote-state bookkeeping of C9 can be read off the
output trace.  Token counts, `response_buffer`, `tool_input_buffer`,
`all_tool_inputs` and `_processed_tool_use_ids` only feed the usage
numbers and logs and are omitted. -/

/-- Content-block kinds. -/
inductive BlockKind where
  | textK
  | thinkingK
  | toolUseK (id name : String)
deriving DecidableEq, Repr

/-- Emitted SSE events (plus the ghost `qreset`). -/
inductive Out where
  | messageStart
  | ping
  | blockStart (idx : Int) (kind : BlockKind)
  | textDelta (idx : Int) (s : List Char)
  | thinkingDelta (idx : Int) (s : List Char)
  | inputJsonDelta (idx : Int) (s : String)
  | blockStop (idx : Int)
  | messageStop (stopReason : String)
  | qreset
deriving DecidableEq, Repr

/-- Upstream events as `handle_event` dispatches on them.  A
`toolUse` id / name of `none` stands for an absent or falsy field; the
`input` is the serialized fragment it would emit (`none` for an absent
or falsy input). -/
inductive UpEvent where
  | initialResponse
  | assistantResponse (content : List Char)
  | toolUse (toolUseId : Option String) (name : Option String)
      (input : Option String) (stop : Bool)
  | assistantResponseEnd
  | otherEvent
deriving Repr

/-- `ClaudeStreamHandler` state (the fields that feed control flow). -/
structure HState where
  contentBlockIndex : Int
  contentBlockStarted : Bool
  contentBlockStartSent : Bool
  contentBlockStopSent : Bool
  messageStartSent : Bool
  currentToolUse : Option (String × String)
  hasToolUse : Bool
  responseEnded : Bool
  inThinkBlock : Bool
  thinkBuffer : List Char
  pendingStartTagChars : Nat
  quoteState : QS
deriving DecidableEq, Repr

/-- A freshly constructed handler. -/
def initHState : HState :=
  { contentBlockIndex := -1, contentBlockStarted := false,
    contentBlockStartSent := false, contentBlockStopSent := false,
    messageStartSent := false, currentToolUse := none, hasToolUse := false,
    responseEnded := false, inThinkBlock := false, thinkBuffer := [],
    pendingStartTagChars := 0, quoteState := initQS }

/-- Emitting a nonempty text chunk (lines 261-270 and 274-283): open a
text block if none is open, emit the delta, update the quote state. -/
def emitTextChunk (st : HState) (chunk : List Char) : HState × List Out :=
  if st.contentBlockStartSent then
    ({ st with quoteState := qsUpdate st.quoteState chunk },
     [.textDelta st.contentBlockIndex chunk])
  else
    ({ st with
        contentBlockIndex := st.contentBlockIndex + 1
        contentBlockStartSent := true
        contentBlockStarted := true
        contentBlockStopSent := false
        quoteState := qsUpdate st.quoteState chunk },
     [.blockStart (st.contentBlockIndex + 1) .textK,
      .textDelta (st.contentBlockIndex + 1) chunk])

/-- Closing the open block before switching to a thinking block
(lines 242-245 and 287-290): when `content_block_start_sent`, emit
`content_block_stop` and flip the two flags. -/
def closeIfStartSent (st : HState) : HState × List Out :=
  if st.contentBlockStartSent then
    ({ st with contentBlockStopSent := true, contentBlockStartSent := false },
     [.blockStop st.contentBlockIndex])
  else (st, [])

/-- Opening a thinking block (lines 247-252 and 292-297): bump the
index, emit `content_block_start(thinking)`, set the flags. -/
def openThinkingBlock (st : HState) : HState × List Out :=
  ({ st with
      contentBlockIndex := st.contentBlockIndex + 1
      contentBlockStartSent := true
      contentBlockStarted := true
      contentBlockStopSent := false
      inThinkBlock := true },
   [.blockStart (st.contentBlockIndex + 1) .thinkingK])

/-- The `while self.think_buffer` loop of the `assistantResponseEvent`
branch (lines 224-329), one recursive call per iteration.  Every
iteration that continues consumes at least one buffered character, so
`buffer length + 1` iterations are never exhausted. -/
def processBuffer : Nat → HState → HState × List Out
  | 0, st => (st, [])
  | fuel + 1, st =>
    if st.thinkBuffer = [] then (st, [])
    else if 0 < st.pendingStartTagChars then
      if st.thinkBuffer.length < st.pendingStartTagChars then
        ({ st with
            pendingStartTagChars := st.pendingStartTagChars - st.thinkBuffer.length
            thinkBuffer := [] }, [])
      else
        processBuffer fuel { st with
          thinkBuffer := st.thinkBuffer.drop st.pendingStartTagChars
          pendingStartTagChars := 0 }
    else if st.inThinkBlock = false then
      match findRealTag st.quoteState st.thinkBuffer thinkingStartTag 0 with
      | none =>
        let pending := pendingTagSuffix st.thinkBuffer thinkingStartTag
        if pending = st.thinkBuffer.length ∧ 0 < pending then
          let c := closeIfStartSent st
          let o := openThinkingBlock c.1
          ({ o.1 with
              pendingStartTagChars := thinkingStartTag.length - pending
              thinkBuffer := [] },
           c.2 ++ o.2)
        else
          let emitLen := st.thinkBuffer.length - pending
          if emitLen = 0 then (st, [])
          else
            let r := emitTextChunk st (st.thinkBuffer.take emitLen)
            let r2 := processBuffer fuel { r.1 with thinkBuffer := st.thinkBuffer.drop emitLen }
            (r2.1, r.2 ++ r2.2)
      | some thinkStart =>
        let before := st.thinkBuffer.take thinkStart
        let r := if before ≠ [] then emitTextChunk st before else (st, [])
        let st1 := { r.1 with
          thinkBuffer := st.thinkBuffer.drop (thinkStart + thinkingStartTag.length)
          quoteState := initQS }
        let c := closeIfStartSent st1
        let o := openThinkingBlock c.1
        let st3 := { o.1 with pendingStartTagChars := 0 }
        let r2 := processBuffer fuel st3
        (r2.1, r.2 ++ .qreset :: (c.2 ++ o.2) ++ r2.2)
    else
      match findRealTag st.quoteState st.thinkBuffer thinkingEndTag 0 with
      | none =>
        let pending := pendingTagSuffix st.thinkBuffer thinkingEndTag
        let emitLen := st.thinkBuffer.length - pending
        if emitLen = 0 then (st, [])
        else
          let chunk := st.thinkBuffer.take emitLen
          let outs : List Out :=
            if chunk ≠ [] then [.thinkingDelta st.contentBlockIndex chunk] else []
          let r2 := processBuffer fuel { st with thinkBuffer := st.thinkBuffer.drop emitLen }
          (r2.1, outs ++ r2.2)
      | some thinkEnd =>
        let chunk := st.thinkBuffer.take thinkEnd
        let outs : List Out :=
          if chunk ≠ [] then [.thinkingDelta st.contentBlockIndex chunk] else []
        let r2 := processBuffer fuel { st with
          thinkBuffer := st.thinkBuffer.drop (thinkEnd + thinkingEndTag.length)
          contentBlockStopSent := true
          contentBlockStartSent := false
          inThinkBlock := false }
        (r2.1, outs ++ .blockStop st.contentBlockIndex :: r2.2)

/-- `ClaudeStreamHandler.handle_event`. -/
def handleEvent (st : HState) (e : UpEvent) : HState × List Out :=
  if st.responseEnded then (st, [])
  else
    match e with
    | .initialResponse =>
      if st.messageStartSent = false then
        ({ st with messageStartSent := true }, [.messageStart, .ping])
      else (st, [])
    | .assistantResponse content =>
      let pre : HState × List Out :=
        if st.currentToolUse.isSome ∧ st.contentBlockStopSent = false then
          ({ st with contentBlockStopSent := true, currentToolUse := none },
           [.blockStop st.contentBlockIndex])
        else (st, [])
      if content = [] then pre
      else
        let st1 := { pre.1 with thinkBuffer := pre.1.thinkBuffer ++ content }
        let r := processBuffer (st1.thinkBuffer.length + 1) st1
        (r.1, pre.2 ++ r.2)
    | .toolUse id name input stop =>
      let r1 : HState × List Out :=
        if id.isSome ∧ name.isSome ∧ st.currentToolUse = none then
          let closeOuts : List Out :=
            if st.contentBlockStartSent ∧ st.contentBlockStopSent = false then
              [.blockStop st.contentBlockIndex]
            else []
          let stA := if st.contentBlockStartSent ∧ st.contentBlockStopSent = false then
              { st with contentBlockStopSent := true }
            else st
          let stB := { stA with
            contentBlockIndex := stA.contentBlockIndex + 1
            contentBlockStarted := true
            currentToolUse := some (id.getD "", name.getD "")
            contentBlockStopSent := false
            contentBlockStartSent := true
            hasToolUse := true }
          (stB, closeOuts
            ++ [.blockStart stB.contentBlockIndex (.toolUseK (id.getD "") (name.getD ""))])
        else (st, [])
      let r2 : List Out :=
        if r1.1.currentToolUse.isSome ∧ input.isSome then
          [.inputJsonDelta r1.1.contentBlockIndex (input.getD "")]
        else []
      if stop = true ∧ r1.1.currentToolUse.isSome then
        ({ r1.1 with
            contentBlockStopSent := true
            contentBlockStarted := false
            currentToolUse := none },
         r1.2 ++ r2 ++ [.blockStop r1.1.contentBlockIndex])
      else (r1.1, r1.2 ++ r2)
    | .assistantResponseEnd =>
      let closeOuts : List Out :=
        if st.contentBlockStarted ∧ st.contentBlockStopSent = false then
          [.blockStop st.contentBlockIndex]
        else []
      let stA := if st.contentBlockStarted ∧ st.contentBlockStopSent = false then
          { st with contentBlockStopSent := true }
        else st
      ({ stA with responseEnded := true },
       closeOuts ++ [.messageStop (if st.hasToolUse then "tool_use" else "end_turn")])
    | .otherEvent => (st, [])

/-- `ClaudeStreamHandler.finish`. -/
def finish (st : HState) : HState × List Out :=
  if st.responseEnded then (st, [])
  else
    let closeOuts : List Out :=
      if st.contentBlockStarted ∧ st.contentBlockStopSent = false then
        [.blockStop st.contentBlockIndex]
      else []
    let stA := if st.contentBlockStarted ∧ st.contentBlockStopSent = false then
        { st with contentBlockStopSent := true }
      else st
    (stA, closeOuts ++ [.messageStop (if st.hasToolUse then "tool_use" else "end_turn")])

/-- Fold one event into an accumulated (state, outputs) pair. -/
def runStep (acc : HState × List Out) (e : UpEvent) : HState × List Out :=
  ((handleEvent acc.1 e).1, acc.2 ++ (handleEvent acc.1 e).2)

/-- Run a fresh handler over a list of upstream events. -/
def runEvents (events : List UpEvent) : HState × List Out :=
  events.foldl runStep (initHState, [])

/-- Run the events and then `finish()` (generator termination). -/
def runWithFinish (events : List UpEvent) : HState × List Out :=
  ((finish (runEvents events).1).1,
   (runEvents events).2 ++ (finish (runEvents events).1).2)

/-- Concatenation of all `text_delta` payloads of a transcript. -/
def outsTextConcat (outs : List Out) : List Char :=
  (outs.map (fun o => match o with | .textDelta _ s => s | _ => [])).flatten

/-- Concatenation of all `thinking_delta` payloads of a transcript. -/
def outsThinkingConcat (outs : List Out) : List Char :=
  (outs.map (fun o => match o with | .thinkingDelta _ s => s | _ => [])).flatten

/-- Number of `content_block_start` events. -/
def countBlockStarts (outs : List Out) : Nat :=
  outs.countP (fun o => match o with | .blockStart _ _ => true | _ => false)

/-- Number of `content_block_stop` events. -/
def countBlockStops (outs : List Out) : Nat :=
  outs.countP (fun o => match o with | .blockStop _ => true | _ => false)

/-- Number of `content_block_stop` events for block index `i`. -/
def countBlockStopsAt (outs : List Out) (i : Int) : Nat :=
  outs.countP (fun o => match o with | .blockStop j => decide (j = i) | _ => false)

/-- Number of `content_block_start` events for block index `i`. -/
def countBlockStartsAt (outs : List Out) (i : Int) : Nat :=
  outs.countP (fun o => match o with | .blockStart j _ => decide (j = i) | _ => false)

/-- One step of the "text deltas since the last quote-state reset"
accounting: a `qreset` marker clears the record, a text delta appends
its payload, everything else is neutral. -/
def tsrStep (acc : List (List Char)) (o : Out) : List (List Char) :=
  match o with
  | .qreset => []
  | .textDelta _ s => acc ++ [s]
  | _ => acc

/-- The text deltas emitted since the last quote-state reset, in
order. -/
def textSinceReset (outs : List Out) : List (List Char) :=
  outs.foldl tsrStep []

/-- Feed one `assistantResponseEvent` per chunk. -/
def chunksToEvents (chunks : List (List Char)) : List UpEvent :=
  chunks.map (fun c => .assistantResponse c)

/-!
# Theorems
-/

theorem xor_xor_cancel (x f : Nat) : x ^^^ f ^^^ f = x := by
  rw [Nat.xor_assoc, Nat.xor_self, Nat.xor_zero]

theorem listBeq_decide (a b : List Char) : (a == b) = decide (a = b) := by
  cases h : a == b
  · simp at h; simp [h]
  · simp at h; simp [h]

/-- C10: For all byte strings `a` and `b`, the pure-Python CRC32C
satisfies the chaining law `crc32c(a ++ b) = crc32c(b, initial = crc32c(a))`:
the `initial` parameter makes the checksum computable incrementally over
concatenation. -/
theorem c10_crc32c_chaining (a b : List Nat) :
    crc32c (a ++ b) 0 = crc32c b (crc32c a 0) := by
  unfold crc32c crc32cRaw
  rw [List.foldl_append, xor_xor_cancel]

/-- C8, counterexample: a thinking config object with `enabled = false`
but `budget_tokens = 100 > 0` does NOT enable thinking mode in the code
(the boolean `enabled` flag is returned before `budget_tokens` is ever
consulted), while the claim says it enables it. -/
theorem c8_enabled_false_budget_positive :
    thinkingEnabled (some (.dictCfg none (some false) (some 100))) "claude-sonnet-4.5" = false
      ∧ claimC8Enabled (some (.dictCfg none (some false) (some 100))) "claude-sonnet-4.5" = true := by
  constructor <;> decide

/-- C8, amended: thinking mode is enabled exactly when the config is
`true`, the (lowercased) string "enabled", an object whose `type`
lowers to "enabled", an object whose boolean `enabled` flag is true, or
an object with NO boolean `enabled` flag and `budget_tokens > 0`; or the
model name carried a detected `-thinking` suffix (trimmed, lowercased
name of at most 100 characters ending in `-thinking`).  An object with
`enabled = false` disables thinking regardless of `budget_tokens`. -/
theorem c8_thinking_detection_iff (cfg : Option ThinkingCfg) (model : String) :
    thinkingEnabled cfg model = amendedC8Enabled cfg model := by
  unfold thinkingEnabled amendedC8Enabled isThinkingModeEnabled
  match cfg with
  | none => rfl
  | some (.boolCfg b) => cases b <;> simp
  | some (.strCfg s) => rfl
  | some (.dictCfg type enabled budget) =>
    by_cases ht : pyLower (type.getD "").data = "enabled".data
    · simp [ht]
    · match enabled with
      | some b => cases b <;> simp [ht]
      | none =>
        match budget with
        | some n => simp [ht]
        | none => simp [ht]

theorem dictInsert_fresh (d : List (String × ToolResult)) (k : String) (v : ToolResult)
    (h : ∀ kv ∈ d, kv.1 ≠ k) : dictInsert d k v = d ++ [(k, v)] := by
  unfold dictInsert
  rw [if_neg]
  simp only [List.any_eq_true, decide_eq_true_eq, not_exists, not_and]
  intro kv hkv
  exact h kv hkv

theorem buildDict_eq_aux (rs : List ToolResult) :
    ∀ d : List (String × ToolResult),
      (d.map Prod.fst ++ rs.filterMap rid).Nodup →
      rs.foldl (fun d r => match rid r with | some i => dictInsert d i r | none => d) d
        = d ++ ridPairs rs := by
  induction rs with
  | nil => intro d _; simp [ridPairs]
  | cons r rs ih =>
    intro d hd
    cases hr : rid r with
    | none =>
      have : ridPairs (r :: rs) = ridPairs rs := by simp [ridPairs, hr]
      rw [this]
      simp only [List.foldl_cons, hr]
      apply ih
      simpa [hr] using hd
    | some i =>
      have hpairs : ridPairs (r :: rs) = (i, r) :: ridPairs rs := by simp [ridPairs, hr]
      have hmem : ∀ kv ∈ d, kv.1 ≠ i := by
        intro kv hkv
        have hi : i ∈ d.map Prod.fst → False := by
          intro hin
          rw [List.nodup_append] at hd
          exact hd.2.2 hin (by simp [hr])
        intro heq
        exact hi (heq ▸ List.mem_map_of_mem Prod.fst hkv)
      rw [hpairs]
      simp only [List.foldl_cons, hr]
      rw [dictInsert_fresh d i r hmem]
      have hd2 : ((d ++ [(i, r)]).map Prod.fst ++ rs.filterMap rid).Nodup := by
        have : (d ++ [(i, r)]).map Prod.fst ++ rs.filterMap rid
            = d.map Prod.fst ++ i :: rs.filterMap rid := by simp
        rw [this]
        simpa [hr] using hd
      rw [ih (d ++ [(i, r)]) hd2]
      simp

theorem buildDict_eq (rs : List ToolResult) (h : (rs.filterMap rid).Nodup) :
    buildDict rs = ridPairs rs := by
  have := buildDict_eq_aux rs [] (by simpa using h)
  simpa [buildDict] using this

theorem find?_filter_ne (d : List (String × ToolResult)) (u u' : String) (h : u' ≠ u) :
    (d.filter (fun kv => ! decide (kv.1 = u))).find? (fun kv => decide (kv.1 = u'))
      = d.find? (fun kv => decide (kv.1 = u')) := by
  induction d with
  | nil => rfl
  | cons kv d ih =>
    by_cases hu : kv.1 = u
    · simp [List.filter_cons, List.find?_cons, hu, Ne.symm h, ih]
    · by_cases h2 : kv.1 = u'
      · simp [List.filter_cons, List.find?_cons, hu, h2, h]
      · simp [List.filter_cons, List.find?_cons, hu, h2, ih]

theorem popAux_spec (order : List String) :
    ∀ (d : List (String × ToolResult)) (acc : List ToolResult), order.Nodup →
    popAux order d acc =
      (acc ++ order.filterMap (fun u => (d.find? (fun kv => decide (kv.1 = u))).map Prod.snd),
       d.filter (fun kv => ! decide (kv.1 ∈ order))) := by
  induction order with
  | nil => intro d acc _; simp [popAux]
  | cons u order ih =>
    intro d acc hnd
    have hu : u ∉ order := (List.nodup_cons.mp hnd).1
    have hnd' : order.Nodup := (List.nodup_cons.mp hnd).2
    cases hf : d.find? (fun kv => decide (kv.1 = u)) with
    | none =>
      have hnone : ∀ kv ∈ d, kv.1 ≠ u := by
        intro kv hkv
        have := List.find?_eq_none.mp hf kv hkv
        simpa using this
      simp only [popAux, hf]
      rw [ih d acc hnd']
      rw [Prod.mk.injEq]
      refine ⟨by simp [hf], ?_⟩
      apply List.filter_congr
      intro kv hkv
      simp [List.mem_cons, hnone kv hkv]
    | some kv =>
      simp only [popAux, hf]
      rw [ih (d.filter (fun kv2 => ! decide (kv2.1 = u))) (acc ++ [kv.2]) hnd']
      rw [Prod.mk.injEq]
      constructor
      · have hcongr : order.filterMap
            (fun u' => ((d.filter (fun kv2 => ! decide (kv2.1 = u))).find?
              (fun kv2 => decide (kv2.1 = u'))).map Prod.snd)
            = order.filterMap (fun u' => (d.find? (fun kv2 => decide (kv2.1 = u'))).map Prod.snd) := by
          apply List.filterMap_congr
          intro u' hu'
          rw [find?_filter_ne d u u' (fun he => hu (he ▸ hu'))]
        rw [hcongr]
        simp [hf]
      · rw [List.filter_filter]
        apply List.filter_congr
        intro kv2 _
        by_cases h1 : kv2.1 = u <;> simp [List.mem_cons, h1]

theorem rid_eq_none_iff (r : ToolResult) : rid r = none ↔ idTruthy r.toolUseId = false := by
  unfold rid
  cases h : idTruthy r.toolUseId with
  | false => simp
  | true =>
    cases ht : r.toolUseId with
    | none =>
      rw [ht] at h
      simp [idTruthy] at h
    | some s => simp [ht]

theorem ridPairs_find (rs : List ToolResult) (u : String) :
    (ridPairs rs).find? (fun kv => decide (kv.1 = u))
      = (rs.find? (fun r => decide (rid r = some u))).map (fun r => (u, r)) := by
  induction rs with
  | nil => rfl
  | cons r rs ih =>
    cases hr : rid r with
    | none =>
      have h1 : ridPairs (r :: rs) = ridPairs rs := by simp [ridPairs, hr]
      simp [List.find?_cons, hr, h1, ih]
    | some i =>
      have h1 : ridPairs (r :: rs) = (i, r) :: ridPairs rs := by simp [ridPairs, hr]
      by_cases hi : i = u
      · subst hi
        simp [List.find?_cons, hr, h1]
      · simp [List.find?_cons, hr, h1, hi, ih]

theorem ridPairs_filter_map (rs : List ToolResult) (order : List String) :
    (((ridPairs rs).filter (fun kv => ! decide (kv.1 ∈ order))).map Prod.snd)
      = rs.filter (fun r => match rid r with | some i => ! decide (i ∈ order) | none => false) := by
  induction rs with
  | nil => rfl
  | cons r rs ih =>
    cases hr : rid r with
    | none =>
      have h1 : ridPairs (r :: rs) = ridPairs rs := by simp [ridPairs, hr]
      simp [List.filter_cons, hr, h1, ih]
    | some i =>
      have h1 : ridPairs (r :: rs) = (i, r) :: ridPairs rs := by simp [ridPairs, hr]
      by_cases hi : i ∈ order <;>
        simp [List.filter_cons, hr, h1, hi, ih]

/-- C5: For an assistant `tool_use` id sequence `U` (nonempty, as in the
pipeline, which only reorders when the preceding assistant message had
tool uses) and a nonempty `toolResults` list `R` with pairwise-distinct
truthy ids (the pipeline merges duplicate ids before reordering),
`_reorder_tool_results_by_tool_uses` outputs: first every id of `U` that
occurs in `R`, in the order of `U`; then the results whose ids are not
in `U`, in their original relative order; then the results without an
id, in their original relative order. -/
theorem c5_reorder_characterization (rs : List ToolResult) (order : List String)
    (hO : order ≠ []) (hR : rs ≠ []) (hUnod : order.Nodup)
    (hRnod : (rs.filterMap rid).Nodup) :
    reorderToolResults rs order =
      order.filterMap (fun u => rs.find? (fun r => decide (rid r = some u)))
        ++ (rs.filter (fun r => match rid r with | some i => ! decide (i ∈ order) | none => false)
        ++ rs.filter (fun r => decide (rid r = none))) := by
  unfold reorderToolResults
  rw [if_neg (by simp [hO, hR])]
  rw [buildDict_eq rs hRnod]
  rw [popAux_spec order (ridPairs rs) [] hUnod]
  congr 1
  · simp only [List.nil_append]
    apply List.filterMap_congr
    intro u _
    rw [ridPairs_find]
    cases rs.find? (fun r => decide (rid r = some u)) <;> rfl
  · congr 1
    · exact ridPairs_filter_map rs order
    · apply List.filter_congr
      intro r _
      rcases h : rid r with _ | i
      · have := (rid_eq_none_iff r).mp h
        simp [this, h]
      · have : idTruthy r.toolUseId = true := by
          by_cases hb : idTruthy r.toolUseId = true
          · exact hb
          · exfalso
            simp at hb
            have := (rid_eq_none_iff r).mpr hb
            rw [this] at h
            cases h
        simp [this, h]

/-- C5 witness: tool_use order `[A,B,C]`, results given as `[C,A,B]`;
the reordered output is `[A,B,C]`. -/
theorem c5_reorder_witness :
    reorderToolResults
        [⟨some "C", "rc"⟩, ⟨some "A", "ra"⟩, ⟨some "B", "rb"⟩] ["A", "B", "C"]
      = [⟨some "A", "ra"⟩, ⟨some "B", "rb"⟩, ⟨some "C", "rc"⟩] := by
  have h := c5_reorder_characterization
    [⟨some "C", "rc"⟩, ⟨some "A", "ra"⟩, ⟨some "B", "rb"⟩] ["A", "B", "C"]
    (by decide) (by decide) (by decide) (by decide)
  rw [h]
  decide

theorem detect_blocks_toks (bs : List LoopBlock) :
    ∀ st : LoopState,
      bs.foldl detectStepBlock st
        = (bs.filterMap (fun b => match b with
            | .toolUse n i => some (.call (n, dumps i))
            | .otherBlock => none)).foldl tokStep st := by
  induction bs with
  | nil => intro st; rfl
  | cons b bs ih =>
    intro st
    cases b with
    | toolUse n i => simp [List.filterMap_cons, detectStepBlock, tokStep, ih]
    | otherBlock => simp [List.filterMap_cons, detectStepBlock, ih]

theorem detect_msg_toks (m : LoopMsg) (st : LoopState) :
    detectStepMsg st m = (msgToks m).foldl tokStep st := by
  rcases m with ⟨role, content⟩
  cases role with
  | userR => cases content <;> rfl
  | assistantR =>
    cases content with
    | strC s => rfl
    | blocksC bs => exact detect_blocks_toks bs st

theorem detect_scan_toks (msgs : List LoopMsg) :
    ∀ st : LoopState,
      msgs.foldl detectStepMsg st = ((msgs.map msgToks).flatten).foldl tokStep st := by
  induction msgs with
  | nil => intro st; rfl
  | cons m msgs ih =>
    intro st
    simp only [List.foldl_cons, List.map_cons, List.flatten_cons, List.foldl_append]
    rw [detect_msg_toks, ih]

theorem trailing_cons_call (rts : List LoopTok) (c : Option String × List Char) :
    (if headCallOf rts = some c then trailingRunAux rts + 1 else 1)
      = trailingRunAux (.call c :: rts) := by
  cases rts with
  | nil => simp [headCallOf, trailingRunAux]
  | cons t rts =>
    cases t with
    | reset => simp [headCallOf, trailingRunAux, List.takeWhile_cons]
    | call c' =>
      by_cases hc : c' = c
      · subst hc
        simp [headCallOf, trailingRunAux, List.takeWhile_cons]
        omega
      · have : (.call c' : LoopTok) ≠ .call c := by simp [hc]
        simp [headCallOf, trailingRunAux, List.takeWhile_cons, hc, this]

theorem tok_scan_trailing (rts : List LoopTok) :
    (rts.reverse).foldl tokStep ((0 : Nat), (none : Option (Option String × List Char)))
      = (trailingRunAux rts, headCallOf rts) := by
  induction rts with
  | nil => rfl
  | cons t rts ih =>
    rw [List.reverse_cons, List.foldl_append, ih]
    cases t with
    | reset => rfl
    | call c =>
      show tokStep _ (.call c) = _
      rw [tokStep]
      by_cases h : headCallOf rts = some c
      · simp only [h, if_pos]
        rw [Prod.mk.injEq]
        refine ⟨?_, rfl⟩
        have := trailing_cons_call rts c
        rw [if_pos h] at this
        simpa [headCallOf] using this
      · simp only [h, if_neg]
        rw [Prod.mk.injEq]
        refine ⟨?_, rfl⟩
        have := trailing_cons_call rts c
        rw [if_neg h] at this
        simpa [headCallOf] using this

/-- C4, amended: `convert_claude_to_amazonq_request` fails with
`LoopDetected` if and only if the run of identical consecutive
assistant `tool_use` calls AT THE END of the last-10-message window
(reset by any user message and by any differing call) has length at
least 3.  A run of length 3 that is followed by a different call or a
user message inside the window is forgotten by the scan and does not
fail the request. -/
theorem c4_loop_detect_iff_trailing_run (messages : List LoopMsg) :
    convertRaisesLoopDetected messages = true
      ↔ 3 ≤ trailingRun (loopToks messages) := by
  unfold convertRaisesLoopDetected detectToolCallLoop trailingRun loopToks
  dsimp only
  have h1 := detect_scan_toks (messages.drop (messages.length - 10))
    ((0 : Nat), (none : Option (Option String × List Char)))
  have h2 := tok_scan_trailing
    (((messages.drop (messages.length - 10)).map msgToks).flatten).reverse
  rw [List.reverse_reverse] at h2
  rw [h1, h2]
  by_cases h : 3 ≤ trailingRunAux
      ((((messages.drop (messages.length - 10)).map msgToks).flatten).reverse)
  · simp [h]
  · simp [h]

/-- C4, counterexample: these four assistant messages (all inside the
last-10 window, no intervening user message) contain a run of exactly 3
identical `search` calls, yet the converter does not fail: the final
trailing run has length 1, and only the final run is consulted. -/
theorem c4_inner_run_not_detected :
    maxRun (loopToks c4ExampleMsgs) = 3
      ∧ convertRaisesLoopDetected c4ExampleMsgs = false := by
  constructor <;> decide

theorem contextUserSection_ne_empty (now prompt : String) :
    contextUserSection now prompt ≠ "" := by
  intro h
  have hd := congrArg String.data h
  unfold contextUserSection at hd
  simp only [String.data_append] at hd
  simp at hd

theorem toolDocSection_ne_empty (body rest : String) :
    toolDocSection body rest ≠ "" := by
  intro h
  have hd := congrArg String.data h
  unfold toolDocSection at hd
  simp only [String.data_append] at hd
  simp at hd

set_option maxRecDepth 8192 in
/-- C6, counterexample: with a truthy system prompt "S" and one
long-description tool, the code emits the SYSTEM PROMPT section BEFORE
the TOOL DOCUMENTATION section (system is prepended last), while the
claim puts TOOL DOCUMENTATION first. -/
theorem c6_system_precedes_tool_docs :
    formattedContent false "hi" [("t", "D")] (.strS "S") false "NOW"
        ≠ claimC6Order "hi" [("t", "D")] (.strS "S") "NOW"
      ∧ formattedContent false "hi" [("t", "D")] (.strS "S") false "NOW"
        = sysSection "S" (toolDocSection (toolDocsBody [("t", "D")])
            (contextUserSection "NOW" "hi")) := by
  constructor
  · decide
  · decide

/-- C6, amended: for a request whose last user message has
non-tool_result text (so the base block is present) and with thinking
disabled, `formatted_content` is the concatenation, in this order, of
the optional sections (1) SYSTEM PROMPT, (2) TOOL DOCUMENTATION,
(3) CONTEXT ENTRY with the current time, (4) USER MESSAGE with the user
text — i.e. the system prompt precedes the tool documentation. -/
theorem c6_section_order (hasToolResult : Bool) (prompt : String)
    (docs : List (String × String)) (sys : SystemVal) (now : String)
    (h : ¬(hasToolResult = true ∧ prompt = "")) :
    formattedContent hasToolResult prompt docs sys false now =
      (if systemTruthy sys = true ∧ sysTextOf sys ≠ ""
        then "--- SYSTEM PROMPT BEGIN ---\n" ++ sysTextOf sys
          ++ "\n--- SYSTEM PROMPT END ---\n\n"
        else "")
      ++ ((if docs = [] then ""
        else "--- TOOL DOCUMENTATION BEGIN ---\n" ++ toolDocsBody docs
          ++ "--- TOOL DOCUMENTATION END ---\n\n")
      ++ contextUserSection now prompt) := by
  unfold formattedContent
  dsimp only
  rw [if_neg h]
  rw [if_neg (by simp : ¬(false = true))]
  by_cases hd : docs = []
  · rw [if_pos hd, if_pos hd]
    by_cases hs : systemTruthy sys = true ∧ sysTextOf sys ≠ ""
    · rw [if_pos ⟨hs.1, contextUserSection_ne_empty now prompt, hs.2⟩, if_pos hs]
      simp [sysSection, String.append_assoc]
    · rw [if_neg (by
        intro hcon
        exact hs ⟨hcon.1, hcon.2.2⟩), if_neg hs]
      simp
  · rw [if_neg hd, if_neg hd]
    by_cases hs : systemTruthy sys = true ∧ sysTextOf sys ≠ ""
    · rw [if_pos ⟨hs.1,
        toolDocSection_ne_empty (toolDocsBody docs) (contextUserSection now prompt), hs.2⟩,
        if_pos hs]
      simp [sysSection, toolDocSection, String.append_assoc]
    · rw [if_neg (by
        intro hcon
        exact hs ⟨hcon.1, hcon.2.2⟩), if_neg hs]
      simp [toolDocSection, String.append_assoc]

/-- C6 witness: the amended section order at a concrete input with all
four sections present. -/
theorem c6_section_order_witness :
    formattedContent false "hello" [("tool1", "Desc1")] (.strS "SYS") false "Tm"
      = (if systemTruthy (.strS "SYS") = true ∧ sysTextOf (.strS "SYS") ≠ ""
          then "--- SYSTEM PROMPT BEGIN ---\n" ++ sysTextOf (.strS "SYS")
            ++ "\n--- SYSTEM PROMPT END ---\n\n"
          else "")
        ++ ((if ([("tool1", "Desc1")] : List (String × String)) = [] then ""
          else "--- TOOL DOCUMENTATION BEGIN ---\n" ++ toolDocsBody [("tool1", "Desc1")]
            ++ "--- TOOL DOCUMENTATION END ---\n\n")
        ++ contextUserSection "Tm" "hello") :=
  c6_section_order false "hello" [("tool1", "Desc1")] (.strS "SYS") "Tm" (by simp)

set_option maxRecDepth 100000 in
/-- C7, counterexample: feeding a CRC-valid frame whose header region
contains an unknown header type (type 10) after one good header is NOT
treated as a parse error: the decoder stays READY, `error_count` stays
0, and the frame IS emitted carrying the partial header mapping
(`"B" -> true`; the offending field and everything after it dropped). -/
theorem c7_unknown_header_type_no_error :
    feed initDec c7FrameBytes
      = ({ state := .ready, buffer := [], errorCount := 0, maxErrors := 3,
           validateCrc := true, messagesParsed := 1, crcErrors := 0 },
         [{ headers := [([66], .boolV true)], payload := [], totalLength := 23 }]) := by
  decide

/-- C7, amended: a header field with an unknown value type does not
abort or fail the parse; `parse_headers` stops at the offending field
and returns the header mapping accumulated so far, which the decoder
then emits in a successfully parsed frame with `error_count` unchanged
(the decoder half is exhibited by `c7_unknown_header_type_no_error`). -/
theorem c7_header_break_returns_partial (fuel : Nat) (acc : List (List Nat × HVal))
    (name : List Nat) (t : Nat) (junk : List Nat)
    (hname : utf8Valid name = true) (ht : 10 ≤ t) :
    parseHeadersAux (fuel + 1) acc (name.length :: (name ++ t :: junk)) = some acc := by
  have hlen : ¬ ((name ++ t :: junk).length < name.length) := by simp
  have htake : (name ++ t :: junk).take name.length = name := List.take_left name (t :: junk)
  have hdrop : (name ++ t :: junk).drop name.length = t :: junk := List.drop_left name (t :: junk)
  simp only [parseHeadersAux]
  rw [if_neg hlen, htake, hdrop, hname]
  rw [if_neg (by simp)]
  dsimp only
  rw [if_neg (by omega : ¬ (t = 0))]
  rw [if_neg (by omega : ¬ (t = 1)),
    if_neg (by omega : ¬ (t = 2)), if_neg (by omega : ¬ (t = 3)),
    if_neg (by omega : ¬ (t = 4)), if_neg (by omega : ¬ (t = 5)),
    if_neg (by omega : ¬ (t = 8)), if_neg (by omega : ¬ (t = 6 ∨ t = 7)),
    if_neg (by omega : ¬ (t = 9))]

/-- C7 witness: the amended statement at the concrete header region of
`c7FrameBytes` — one good header already accumulated, then name "A"
with unknown type 10. -/
theorem c7_header_break_returns_partial_witness :
    parseHeadersAux (0 + 1) [([66], HVal.boolV true)] (([65] : List Nat).length :: ([65] ++ 10 :: [99]))
      = some [([66], HVal.boolV true)] :=
  c7_header_break_returns_partial 0 [([66], .boolV true)] [65] 10 [99] (by decide) (by decide)

set_option maxRecDepth 100000 in
/-- C1: evaluation at the failing input.  When a chunk boundary leaves
the whole buffer equal to a proper prefix of `<thinking>` ("<th"), the
handler speculatively opens a thinking block and then blindly DROPS the
next `pending_start_tag_chars` characters of the following chunk
without checking that they spell the rest of the tag.  For the chunked
text "<th" + "at cat" (total "<that cat", which contains no real
thinking span) it emits no text delta and no thinking delta at all —
the text is swallowed — whereas the same total text fed as one chunk is
emitted verbatim, as the claim requires. -/
theorem c1_pending_prefix_swallows_text :
    outsTextConcat (runWithFinish
        [.assistantResponse "<th".data, .assistantResponse "at cat".data]).2 = []
      ∧ outsThinkingConcat (runWithFinish
        [.assistantResponse "<th".data, .assistantResponse "at cat".data]).2 = []
      ∧ outsTextConcat (runWithFinish [.assistantResponse "<that cat".data]).2
        = "<that cat".data := by
  refine ⟨?_, ?_, ?_⟩ <;> decide

set_option maxRecDepth 100000 in
/-- C3: evaluation at the failing event sequence.  A `toolUseEvent`
arriving while a thinking block is open closes the thinking block and
opens a tool_use block, but leaves `in_think_block` set; when
`</thinking>` later arrives, the already-closed tool_use block (index
1) receives a second, unguarded `content_block_stop`: 3
`content_block_start` events but 4 `content_block_stop` events, so the
starts are not paired with exactly one stop each. -/
theorem c3_double_block_stop :
    countBlockStarts (runWithFinish
        [.assistantResponse "<thinking>a".data,
         .toolUse (some "t1") (some "f") none false,
         .assistantResponse "b</thinking>c".data,
         .assistantResponseEnd]).2 = 3
      ∧ countBlockStops (runWithFinish
        [.assistantResponse "<thinking>a".data,
         .toolUse (some "t1") (some "f") none false,
         .assistantResponse "b</thinking>c".data,
         .assistantResponseEnd]).2 = 4
      ∧ countBlockStopsAt (runWithFinish
        [.assistantResponse "<thinking>a".data,
         .toolUse (some "t1") (some "f") none false,
         .assistantResponse "b</thinking>c".data,
         .assistantResponseEnd]).2 1 = 2 := by
  refine ⟨?_, ?_, ?_⟩ <;> decide

set_option maxRecDepth 100000 in
/-- C9, counterexample: feed plain text "``" then "`" (no thinking tags
at all).  The persistent quote state ends with `in_backtick = true`
(each chunk was scanned separately), but `QuoteState.update` computed
on the concatenation "```" of all emitted text yields
`in_triple_backtick = true` — the two states differ, because the
triple-backtick lookahead cannot see across chunk boundaries. -/
theorem c9_split_triple_backtick :
    (runEvents [.assistantResponse "``".data, .assistantResponse "`".data]).1.quoteState
        = { inSingle := false, inDouble := false, inBacktick := true, inTriple := false }
      ∧ qsUpdate initQS (outsTextConcat
          (runEvents [.assistantResponse "``".data, .assistantResponse "`".data]).2)
        = { inSingle := false, inDouble := false, inBacktick := false, inTriple := true }
      ∧ ({ inSingle := false, inDouble := false, inBacktick := true, inTriple := false } : QS)
        ≠ { inSingle := false, inDouble := false, inBacktick := false, inTriple := true } := by
  refine ⟨?_, ?_, ?_⟩ <;> decide

theorem foldl_qsUpdate_append (acc : List (List Char)) (chunk : List Char) :
    (acc ++ [chunk]).foldl qsUpdate initQS = qsUpdate (acc.foldl qsUpdate initQS) chunk := by
  rw [List.foldl_append]
  rfl

theorem emitTextChunk_tsr (st : HState) (chunk : List Char) (acc : List (List Char))
    (h : st.quoteState = acc.foldl qsUpdate initQS) :
    (emitTextChunk st chunk).1.quoteState
      = ((emitTextChunk st chunk).2.foldl tsrStep acc).foldl qsUpdate initQS := by
  unfold emitTextChunk
  by_cases hs : st.contentBlockStartSent = true
  · simp only [hs, if_pos]
    simp [tsrStep, foldl_qsUpdate_append, h]
  · rw [if_neg hs]
    simp [tsrStep, foldl_qsUpdate_append, h]


theorem closeIfStartSent_qs (st : HState) :
    (closeIfStartSent st).1.quoteState = st.quoteState := by
  unfold closeIfStartSent
  split <;> rfl

theorem closeIfStartSent_tsr (st : HState) (a : List (List Char)) :
    (closeIfStartSent st).2.foldl tsrStep a = a := by
  unfold closeIfStartSent
  split <;> rfl

theorem openThinkingBlock_tsr (st : HState) (a : List (List Char)) :
    (openThinkingBlock st).2.foldl tsrStep a = a := rfl

theorem tsrStep_qreset (a : List (List Char)) : tsrStep a .qreset = [] := rfl

theorem tsrStep_blockStart (a : List (List Char)) (i : Int) (k : BlockKind) :
    tsrStep a (.blockStart i k) = a := rfl

theorem tsrStep_blockStop (a : List (List Char)) (i : Int) :
    tsrStep a (.blockStop i) = a := rfl

theorem tsrStep_thinkingDelta (a : List (List Char)) (i : Int) (c : List Char) :
    tsrStep a (.thinkingDelta i c) = a := rfl

theorem tsr_thinkingDelta_opt (a : List (List Char)) (P : Prop) [Decidable P]
    (i : Int) (c : List Char) :
    ((if P then [Out.thinkingDelta i c] else []).foldl tsrStep a) = a := by
  split <;> rfl

theorem specStateQs (st : HState) (p : Nat) :
    ({ (openThinkingBlock (closeIfStartSent st).1).1 with
        pendingStartTagChars := p, thinkBuffer := ([] : List Char) } : HState).quoteState
      = st.quoteState := by
  have h1 : ({ (openThinkingBlock (closeIfStartSent st).1).1 with
      pendingStartTagChars := p, thinkBuffer := ([] : List Char) } : HState).quoteState
      = (closeIfStartSent st).1.quoteState := rfl
  rw [h1, closeIfStartSent_qs]

theorem foundStateQs (st1 : HState) :
    ({ (openThinkingBlock (closeIfStartSent st1).1).1 with
        pendingStartTagChars := 0 } : HState).quoteState = st1.quoteState := by
  have h1 : ({ (openThinkingBlock (closeIfStartSent st1).1).1 with
      pendingStartTagChars := 0 } : HState).quoteState
      = (closeIfStartSent st1).1.quoteState := rfl
  rw [h1, closeIfStartSent_qs]

theorem processBuffer_tsr (fuel : Nat) : ∀ (st : HState) (acc : List (List Char)),
    st.quoteState = acc.foldl qsUpdate initQS →
    (processBuffer fuel st).1.quoteState
      = ((processBuffer fuel st).2.foldl tsrStep acc).foldl qsUpdate initQS := by
  induction fuel with
  | zero => intro st acc h; simpa [processBuffer] using h
  | succ fuel ih =>
    intro st acc h
    rw [processBuffer]
    by_cases hb : st.thinkBuffer = []
    · simpa [hb] using h
    · rw [if_neg hb]
      by_cases hp : 0 < st.pendingStartTagChars
      · rw [if_pos hp]
        by_cases hlen : st.thinkBuffer.length < st.pendingStartTagChars
        · rw [if_pos hlen]
          simpa using h
        · rw [if_neg hlen]
          exact ih _ acc (by simpa using h)
      · rw [if_neg hp]
        by_cases hthink : st.inThinkBlock = false
        · rw [if_pos hthink]
          cases hf : findRealTag st.quoteState st.thinkBuffer thinkingStartTag 0 with
          | none =>
            by_cases hpend : pendingTagSuffix st.thinkBuffer thinkingStartTag
                = st.thinkBuffer.length
                ∧ 0 < pendingTagSuffix st.thinkBuffer thinkingStartTag
            · simp only [hf, if_pos hpend]
              rw [List.foldl_append, closeIfStartSent_tsr, openThinkingBlock_tsr]
              show (closeIfStartSent st).1.quoteState = _
              rw [closeIfStartSent_qs]
              exact h
            · simp only [hf, if_neg hpend]
              by_cases he : st.thinkBuffer.length
                  - pendingTagSuffix st.thinkBuffer thinkingStartTag = 0
              · rw [if_pos he]
                simpa using h
              · rw [if_neg he]
                rw [List.foldl_append]
                exact ih _ _ (by
                  show (emitTextChunk st _).1.quoteState = _
                  exact emitTextChunk_tsr st _ acc h)
          | some thinkStart =>
            simp only [hf]
            simp only [List.foldl_append, List.foldl_cons, tsrStep_qreset,
              closeIfStartSent_tsr, openThinkingBlock_tsr, tsrStep_blockStart,
              tsrStep_blockStop]
            refine ih _ [] ?_
            show (closeIfStartSent _).1.quoteState = _
            rw [closeIfStartSent_qs]
            rfl
        · rw [if_neg hthink]
          cases hf : findRealTag st.quoteState st.thinkBuffer thinkingEndTag 0 with
          | none =>
            simp only [hf]
            by_cases he : st.thinkBuffer.length
                - pendingTagSuffix st.thinkBuffer thinkingEndTag = 0
            · rw [if_pos he]
              simpa using h
            · rw [if_neg he]
              rw [List.foldl_append, tsr_thinkingDelta_opt]
              exact ih _ acc (by simpa using h)
          | some thinkEnd =>
            simp only [hf]
            rw [List.foldl_append, tsr_thinkingDelta_opt, List.foldl_cons]
            have hstop : ∀ (a : List (List Char)) (i : Int), tsrStep a (.blockStop i) = a :=
              fun _ _ => rfl
            rw [hstop]
            exact ih _ acc (by simpa using h)

theorem tsrStep_messageStart (a : List (List Char)) : tsrStep a .messageStart = a := rfl

theorem tsrStep_ping (a : List (List Char)) : tsrStep a .ping = a := rfl

theorem tsrStep_inputJson (a : List (List Char)) (i : Int) (f : String) :
    tsrStep a (.inputJsonDelta i f) = a := rfl

theorem tsrStep_messageStop (a : List (List Char)) (r : String) :
    tsrStep a (.messageStop r) = a := rfl

theorem handleEvent_tsr (st : HState) (e : UpEvent) (acc : List (List Char))
    (h : st.quoteState = acc.foldl qsUpdate initQS) :
    (handleEvent st e).1.quoteState
      = ((handleEvent st e).2.foldl tsrStep acc).foldl qsUpdate initQS := by
  unfold handleEvent
  by_cases hr : st.responseEnded = true
  · simp only [hr, if_pos]
    exact h
  · rw [if_neg hr]
    cases e with
    | initialResponse =>
      by_cases hm : st.messageStartSent = false
      · simp only [hm, if_pos, List.foldl_cons, List.foldl_nil,
          tsrStep_messageStart, tsrStep_ping]
        exact h
      · rw [if_neg hm]
        exact h
    | assistantResponse content =>
      by_cases hT : st.currentToolUse.isSome ∧ st.contentBlockStopSent = false
      · simp only [if_pos hT]
        by_cases hc : content = []
        · simp only [hc, if_pos, List.foldl_cons, List.foldl_nil, tsrStep_blockStop]
          exact h
        · rw [if_neg hc]
          simp only [List.foldl_append, List.foldl_cons, List.foldl_nil, tsrStep_blockStop]
          exact processBuffer_tsr _ _ acc h
      · simp only [if_neg hT]
        by_cases hc : content = []
        · simp only [hc, if_pos]
          exact h
        · rw [if_neg hc]
          simp only [List.foldl_append, List.foldl_nil]
          exact processBuffer_tsr _ _ acc h
    | toolUse id name input stop =>
      by_cases hstart : id.isSome ∧ name.isSome ∧ st.currentToolUse = none
      · simp only [if_pos hstart]
        by_cases hclose : st.contentBlockStartSent ∧ st.contentBlockStopSent = false
        · simp only [if_pos hclose]
          repeat' split
          all_goals simp only [List.foldl_append, List.foldl_cons, List.foldl_nil,
            tsrStep_blockStop, tsrStep_blockStart, tsrStep_inputJson]
          all_goals exact h
        · simp only [if_neg hclose]
          repeat' split
          all_goals simp only [List.foldl_append, List.foldl_cons, List.foldl_nil,
            tsrStep_blockStop, tsrStep_blockStart, tsrStep_inputJson]
          all_goals exact h
      · simp only [if_neg hstart]
        repeat' split
        all_goals simp only [List.foldl_append, List.foldl_cons, List.foldl_nil,
          tsrStep_blockStop, tsrStep_blockStart, tsrStep_inputJson]
        all_goals exact h
    | assistantResponseEnd =>
      by_cases hclose : st.contentBlockStarted ∧ st.contentBlockStopSent = false
      · simp only [if_pos hclose, List.foldl_append, List.foldl_cons, List.foldl_nil,
          tsrStep_blockStop, tsrStep_messageStop]
        exact h
      · simp only [if_neg hclose, List.foldl_cons, List.foldl_nil,
          tsrStep_messageStop, List.foldl_append]
        exact h
    | otherEvent => exact h

theorem runEvents_tsr (events : List UpEvent) :
    ∀ (st : HState) (outsAcc : List Out),
      st.quoteState = (outsAcc.foldl tsrStep []).foldl qsUpdate initQS →
      (events.foldl runStep (st, outsAcc)).1.quoteState
        = (((events.foldl runStep (st, outsAcc)).2.foldl tsrStep []).foldl qsUpdate initQS) := by
  induction events with
  | nil => intro st outsAcc h; exact h
  | cons e events ih =>
    intro st outsAcc h
    rw [List.foldl_cons]
    show ((events.foldl runStep
      ((handleEvent st e).1, outsAcc ++ (handleEvent st e).2)).1.quoteState) = _
    apply ih
    rw [List.foldl_append]
    exact handleEvent_tsr st e (outsAcc.foldl tsrStep []) h

/-- C9, amended: at every point of the stream (after any event
sequence), the handler's persistent QuoteState equals the LEFT FOLD of
`QuoteState.update` over the individual non-thinking text deltas
emitted since the quote state was last reset (the state is reset
exactly when a real `<thinking>` tag found in the buffer is consumed,
marked `qreset` in the transcript).  It need not equal `update` applied
to the single concatenated string: delta boundaries can split a
triple-backtick run or an escape sequence, and a reset forgets all
earlier text (see the counterexample). -/
theorem c9_quote_state_fold_since_reset (events : List UpEvent) :
    (runEvents events).1.quoteState
      = (textSinceReset (runEvents events).2).foldl qsUpdate initQS := by
  unfold runEvents textSinceReset
  exact runEvents_tsr events initHState [] rfl

set_option maxRecDepth 1000000 in
/-- C2, counterexample: the same byte sequence — a valid frame, one
garbage byte, another valid frame — fed as one chunk yields BOTH
frames (the recovery scan sees the whole buffer and resynchronises on
the second frame's prelude), but fed one byte at a time yields only the
FIRST frame: each per-chunk recovery attempt with a 12-byte buffer
deletes one head byte before scanning, and once the garbage byte is
gone these deletions eat into the second frame and destroy it. -/
theorem c2_chunking_changes_frames :
    (feedAll initDec [c2Bytes]).2.length = 2
      ∧ (feedAll initDec (c2Bytes.map (fun b => [b]))).2.length = 1 := by
  constructor <;> decide

theorem prefix_into_head (p t g rest : List Nat) (h : p ++ t = g ++ rest)
    (hle : p.length ≤ g.length) : ∃ u, p ++ u = g := by
  refine ⟨t.take (g.length - p.length), ?_⟩
  have h1 : (p ++ t).take g.length = g := by
    rw [h]
    exact List.take_left g rest
  rw [List.take_append_eq_append_take, List.take_of_length_le hle] at h1
  exact h1

theorem split_off_head (p t g rest : List Nat) (h : p ++ t = g ++ rest)
    (hge : g.length ≤ p.length) : p = g ++ p.drop g.length ∧ p.drop g.length ++ t = rest := by
  have h1 : p.take g.length = g := by
    have h2 : (p ++ t).take g.length = p.take g.length :=
      List.take_append_of_le_length hge
    rw [h] at h2
    rw [List.take_left g rest] at h2
    exact h2.symm
  have h2 : p = g ++ p.drop g.length := by
    conv_lhs => rw [← List.take_append_drop g.length p]
    rw [h1]
  refine ⟨h2, ?_⟩
  have h3 : g ++ (p.drop g.length ++ t) = g ++ rest := by
    rw [← List.append_assoc, ← h2]
    exact h
  exact List.append_cancel_left h3

theorem tryParse_valid (f rest : List Nat) (h : ValidFrame f) :
    tryParseMessage true (f ++ rest) = .frame (recordOf f) rest := by
  obtain ⟨hlen16, hlenM, htot, hpcrc, hmcrc, hhead⟩ := h
  have h4 : (f ++ rest).take 4 = f.take 4 :=
    List.take_append_of_le_length (by omega)
  have hmsg : (f ++ rest).take f.length = f := List.take_left f rest
  have hdropf : (f ++ rest).drop f.length = rest := List.drop_left f rest
  simp only [tryParseMessage]
  rw [h4, htot]
  rw [if_neg (by omega)]
  rw [if_neg (by
    rw [List.length_append]
    omega)]
  rw [hmsg, hdropf]
  rw [if_neg (by
    intro hcon
    exact hcon.2 hpcrc)]
  rw [if_neg (by
    intro hcon
    exact hcon.2 hmcrc)]
  obtain ⟨hs', hsome⟩ := Option.isSome_iff_exists.mp hhead
  rw [hsome]
  simp only [recordOf, hsome, Option.getD_some]

theorem tryParse_needMore (f p t : List Nat) (h : ValidFrame f)
    (hpre : p ++ t = f) (hlt : p.length < f.length) (h12 : 12 ≤ p.length) :
    tryParseMessage true p = .needMore := by
  obtain ⟨hlen16, hlenM, htot, h5, h6, h7⟩ := h
  have h4 : p.take 4 = f.take 4 := by
    rw [← hpre]
    exact (List.take_append_of_le_length (by omega)).symm
  simp only [tryParseMessage]
  rw [h4, htot]
  rw [if_neg (by omega)]
  rw [if_pos hlt]

/-- Loop-level invariant: when the buffer is a prefix of a concatenation
of valid frames and the decoder is in a clean state, the loop emits
exactly the records of the frames wholly contained in the buffer and
keeps the strict remainder. -/
theorem feedLoop_valid (rem : List (List Nat)) :
    ∀ (fuel : Nat) (st : Dec) (t : List Nat),
    (∀ g ∈ rem, ValidFrame g) →
    st.buffer ++ t = rem.flatten →
    st.state ≠ DState.recovering →
    st.state ≠ DState.stopped →
    st.validateCrc = true →
    2 * st.buffer.length + 2 ≤ fuel →
    ∃ k st',
      feedLoop fuel st = (st', (rem.take k).map recordOf) ∧
      st'.buffer ++ t = (rem.drop k).flatten ∧
      st'.state ≠ DState.recovering ∧
      st'.state ≠ DState.stopped ∧
      st'.validateCrc = true ∧
      (∀ g rem2, rem.drop k = g :: rem2 → st'.buffer.length < g.length) := by
  induction rem with
  | nil =>
    intro fuel st t hval hbuf hs1 hs2 hv hfuel
    have hnil : st.buffer = [] ∧ t = [] := by
      have h0 : st.buffer ++ t = [] := by simpa using hbuf
      exact List.append_eq_nil.mp h0
    obtain ⟨m, rfl⟩ : ∃ m, fuel = m + 1 := ⟨fuel - 1, by omega⟩
    refine ⟨0, st, ?_, ?_, hs1, hs2, hv, ?_⟩
    · simp only [feedLoop, if_neg hs1]
      rw [if_pos (by rw [hnil.1]; simp)]
      simp
    · exact hbuf
    · intro g rem2 h
      exact absurd h (by simp)
  | cons g rem2 ih =>
    intro fuel st t hval hbuf hs1 hs2 hv hfuel
    have hg : ValidFrame g := hval g (by simp)
    have hval2 : ∀ x ∈ rem2, ValidFrame x := fun x hx => hval x (by simp [hx])
    have hg16 : 16 ≤ g.length := hg.1
    have hbuf2 : st.buffer ++ t = g ++ rem2.flatten := by simpa using hbuf
    obtain ⟨m, rfl⟩ : ∃ m, fuel = m + 1 := ⟨fuel - 1, by omega⟩
    by_cases hcase : st.buffer.length < g.length
    · by_cases h12 : st.buffer.length < 12
      · refine ⟨0, st, ?_, hbuf, hs1, hs2, hv, ?_⟩
        · simp only [feedLoop, if_neg hs1]
          rw [if_pos h12]
          simp
        · intro g' r' h
          cases h
          exact hcase
      · obtain ⟨u, hu⟩ := prefix_into_head st.buffer t g rem2.flatten hbuf2 (le_of_lt hcase)
        have hnm : tryParseMessage true st.buffer = .needMore :=
          tryParse_needMore g st.buffer u hg hu hcase (by omega)
        refine ⟨0, { st with state := DState.parsing }, ?_, hbuf, ?_, ?_, hv, ?_⟩
        · simp only [feedLoop, if_neg hs1]
          rw [if_neg h12]
          have hpm : tryParseMessage ({ st with state := DState.parsing }).validateCrc
              ({ st with state := DState.parsing }).buffer = ParseRes.needMore := by
            show tryParseMessage st.validateCrc st.buffer = ParseRes.needMore
            rw [hv]
            exact hnm
          rw [hpm]
          simp
        · intro h
          exact DState.noConfusion h
        · intro h
          exact DState.noConfusion h
        · intro g' r' h
          cases h
          exact hcase
    · have hge : g.length ≤ st.buffer.length := le_of_not_lt hcase
      obtain ⟨heq, hrest⟩ := split_off_head st.buffer t g rem2.flatten hbuf2 hge
      have hfr := tryParse_valid g (st.buffer.drop g.length) hg
      rw [← heq] at hfr
      have hlen : (st.buffer.drop g.length).length = st.buffer.length - g.length :=
        List.length_drop g.length st.buffer
      obtain ⟨k, st', h1, h2, h3, h4, h5, h6⟩ :=
        ih m
          { st with
            state := DState.ready
            errorCount := 0
            messagesParsed := st.messagesParsed + 1
            buffer := st.buffer.drop g.length }
          t hval2 hrest
          (by intro h; exact DState.noConfusion h)
          (by intro h; exact DState.noConfusion h)
          hv
          (by
            show 2 * (st.buffer.drop g.length).length + 2 ≤ m
            rw [hlen]
            omega)
      refine ⟨k + 1, st', ?_, h2, h3, h4, h5, ?_⟩
      · simp only [feedLoop, if_neg hs1]
        rw [if_neg (by omega : ¬ st.buffer.length < 12)]
        have hpm : tryParseMessage ({ st with state := DState.parsing }).validateCrc
            ({ st with state := DState.parsing }).buffer
            = ParseRes.frame (recordOf g) (st.buffer.drop g.length) := by
          show tryParseMessage st.validateCrc st.buffer = _
          rw [hv]
          exact hfr
        rw [hpm]
        show ((feedLoop m { st with
            state := DState.ready
            errorCount := 0
            messagesParsed := st.messagesParsed + 1
            buffer := st.buffer.drop g.length }).1,
          recordOf g :: (feedLoop m { st with
            state := DState.ready
            errorCount := 0
            messagesParsed := st.messagesParsed + 1
            buffer := st.buffer.drop g.length }).2) = _
        rw [h1]
        simp [List.take_succ_cons]
      · intro g' r' h
        exact h6 g' r' h

/-- Chunk-fold invariant: feeding the remaining chunks of a valid stream
from a clean state whose buffer holds a strict partial frame appends
exactly the records of the remaining frames. -/
theorem feedAll_go (chunks : List (List Nat)) :
    ∀ (st : Dec) (rem : List (List Nat)) (acc : List PFrame),
    (∀ g ∈ rem, ValidFrame g) →
    st.buffer ++ chunks.flatten = rem.flatten →
    st.state ≠ DState.recovering →
    st.state ≠ DState.stopped →
    st.validateCrc = true →
    (∀ g r2, rem = g :: r2 → st.buffer.length < g.length) →
    (chunks.foldl feedStep (st, acc)).2 = acc ++ rem.map recordOf := by
  induction chunks with
  | nil =>
    intro st rem acc hval hbuf hs1 hs2 hv hgr
    have hb : st.buffer = rem.flatten := by simpa using hbuf
    match rem, hgr with
    | [], _ => simp
    | g :: r2, hgr =>
      exfalso
      have h1 : st.buffer.length < g.length := hgr g r2 rfl
      have h2 : st.buffer.length = g.length + r2.flatten.length := by
        rw [hb]
        simp
      omega
  | cons c cs ih =>
    intro st rem acc hval hbuf hs1 hs2 hv hgr
    obtain ⟨k, st', hloop, hbuf', hr1, hr2, hv', hgr'⟩ :=
      feedLoop_valid rem (2 * (st.buffer.length + c.length) + 2)
        { st with buffer := st.buffer ++ c } cs.flatten hval
        (by
          show (st.buffer ++ c) ++ cs.flatten = rem.flatten
          rw [List.append_assoc]
          simpa using hbuf)
        hs1 hs2 hv
        (by
          show 2 * (st.buffer ++ c).length + 2 ≤ _
          rw [List.length_append])
    have hval' : ∀ g ∈ rem.drop k, ValidFrame g :=
      fun g hg => hval g (List.mem_of_mem_drop hg)
    rw [List.foldl_cons]
    simp only [feedStep, feed, if_neg hs2]
    rw [hloop]
    rw [ih st' (rem.drop k) (acc ++ (rem.take k).map recordOf) hval' hbuf' hr1 hr2 hv' hgr']
    rw [List.append_assoc, ← List.map_append, List.take_append_drop]

/-- C2 (amended): for byte sequences that ARE concatenations of valid
frames, feeding any chunking C1..Cn of the stream to one decoder yields
exactly the records of the frames, the same as feeding the whole stream
in a single feed call (the single-chunk case of the same statement) —
chunk-boundary insensitivity holds on valid streams.  (For invalid
sequences it fails: see the counterexample, where recovery's head-byte
dropping is applied per feed call.) -/
theorem c2_valid_stream_chunk_insensitive (fs chunks : List (List Nat))
    (hval : ∀ g ∈ fs, ValidFrame g)
    (hflat : chunks.flatten = fs.flatten) :
    (feedAll initDec chunks).2 = fs.map recordOf := by
  have h := feedAll_go chunks initDec fs []
    hval
    (by simpa [initDec] using hflat)
    (by intro h; exact DState.noConfusion h)
    (by intro h; exact DState.noConfusion h)
    rfl
    (by
      intro g r2 hr
      have hg : ValidFrame g := hval g (by rw [hr]; simp)
      have h16 : 16 ≤ g.length := hg.1
      show ([] : List Nat).length < g.length
      simp
      omega)
  simpa [feedAll] using h

set_option maxRecDepth 1000000 in
/-- Witness: the 16-byte empty frame split into chunks of 7 and 9 bytes
is decoded to exactly its one record, as the theorem states. -/
theorem c2_valid_stream_chunk_insensitive_witness :
    (∀ g ∈ [f16Bytes], ValidFrame g)
      ∧ ([f16Bytes.take 7, f16Bytes.drop 7] : List (List Nat)).flatten = [f16Bytes].flatten
      ∧ (feedAll initDec [f16Bytes.take 7, f16Bytes.drop 7]).2 = [f16Bytes].map recordOf :=
  ⟨by decide, by decide,
    c2_valid_stream_chunk_insensitive [f16Bytes] [f16Bytes.take 7, f16Bytes.drop 7]
      (by decide) (by decide)⟩
